import Mathlib

/-!
Verification of the HeadShooter multiplayer game server (`server.js`).

The development shallowly embeds the server's data model and the operations
referenced by the specification: angle normalization, the anti-abuse
enforcement gate, lobby ready/leader handling, state-map diffing, projectile
hit resolution, the fire-projectile validation pipeline, the per-tick player
movement step, the match-end transition, and the respawn procedure.

Numbers are modelled with exact arithmetic (`ℚ` for coordinates/angles,
`ℕ`/`ℤ` for timestamps and counters); floating-point rounding is not
modelled.  Comparisons that the source phrases through `Math.sqrt`
(`sqrt d < r` with `r ≥ 0`) are embedded in the equivalent squared form
(`d < r²`), which denotes the same predicate in exact arithmetic.
-/

namespace HS

/-- Exact rational value of the IEEE-754 double `Math.PI` used by the server. -/
def mathPi : ℚ := 884279719003555 / 281474976710656

/-- `const full = Math.PI * 2` in `normalizeAngle`. -/
def twoPi : ℚ := 2 * mathPi

/-- `const MAX_ABS_ANGLE = Math.PI * 32`. -/
def MAX_ABS_ANGLE : ℚ := 32 * mathPi

theorem mathPi_pos : 0 < mathPi := by norm_num [mathPi]

theorem twoPi_pos : 0 < twoPi := by norm_num [twoPi, mathPi]

/-- JavaScript truncation toward zero (used by the `%` remainder operator). -/
def jsTrunc (q : ℚ) : ℤ := if 0 ≤ q then ⌊q⌋ else ⌈q⌉

/-- JavaScript remainder `x % y` (result carries the sign of the dividend). -/
def jsMod (x y : ℚ) : ℚ := x - y * (jsTrunc (x / y) : ℚ)

/-- The `while (a > Math.PI) a -= full;` loop of `normalizeAngle`. -/
def reduceDown (a : ℚ) : ℚ :=
  if mathPi < a then reduceDown (a - twoPi) else a
termination_by (⌈(a - mathPi) / twoPi⌉).toNat
decreasing_by
  have htp : (0 : ℚ) < twoPi := twoPi_pos
  have hx : (0 : ℚ) < (a - mathPi) / twoPi := by
    apply div_pos _ htp
    linarith
  have hc : 0 < ⌈(a - mathPi) / twoPi⌉ := Int.ceil_pos.mpr hx
  have hrw : (a - twoPi - mathPi) / twoPi = (a - mathPi) / twoPi - 1 := by
    field_simp
    ring
  rw [hrw, Int.ceil_sub_one]
  omega

/-- The `while (a < -Math.PI) a += full;` loop of `normalizeAngle`. -/
def reduceUp (a : ℚ) : ℚ :=
  if a < -mathPi then reduceUp (a + twoPi) else a
termination_by (⌈(-mathPi - a) / twoPi⌉).toNat
decreasing_by
  have htp : (0 : ℚ) < twoPi := twoPi_pos
  have hx : (0 : ℚ) < (-mathPi - a) / twoPi := by
    apply div_pos _ htp
    linarith
  have hc : 0 < ⌈(-mathPi - a) / twoPi⌉ := Int.ceil_pos.mpr hx
  have hrw : (-mathPi - (a + twoPi)) / twoPi = (-mathPi - a) / twoPi - 1 := by
    field_simp
    ring
  rw [hrw, Int.ceil_sub_one]
  omega

/-- `normalizeAngle(angle)` from `server.js` (the non-finite guard is vacuous
over `ℚ`, every rational is a finite number). -/
def normalizeAngle (angle : ℚ) : ℚ :=
  let a := if MAX_ABS_ANGLE < |angle| then jsMod angle twoPi else angle
  reduceUp (reduceDown a)

theorem reduceDown_le (a : ℚ) : reduceDown a ≤ mathPi := by
  induction a using reduceDown.induct with
  | case1 a h ih => rw [reduceDown, if_pos h]; exact ih
  | case2 a h => rw [reduceDown, if_neg h]; linarith [not_lt.mp h]

theorem reduceDown_ge : ∀ (a : ℚ), -mathPi ≤ a → -mathPi ≤ reduceDown a := by
  intro a
  induction a using reduceDown.induct with
  | case1 a h ih =>
    intro _
    rw [reduceDown, if_pos h]
    apply ih
    have := mathPi_pos
    simp only [twoPi]
    linarith
  | case2 a h => intro ha; rw [reduceDown, if_neg h]; exact ha

theorem reduceDown_congr (a : ℚ) : ∃ k : ℤ, reduceDown a = a - twoPi * k := by
  induction a using reduceDown.induct with
  | case1 a h ih =>
    obtain ⟨k, hk⟩ := ih
    refine ⟨k + 1, ?_⟩
    rw [reduceDown, if_pos h, hk]
    push_cast
    ring
  | case2 a h => exact ⟨0, by rw [reduceDown, if_neg h]; simp⟩

theorem reduceUp_ge (a : ℚ) : -mathPi ≤ reduceUp a := by
  induction a using reduceUp.induct with
  | case1 a h ih => rw [reduceUp, if_pos h]; exact ih
  | case2 a h => rw [reduceUp, if_neg h]; linarith [not_lt.mp h]

theorem reduceUp_le : ∀ (a : ℚ), a ≤ mathPi → reduceUp a ≤ mathPi := by
  intro a
  induction a using reduceUp.induct with
  | case1 a h ih =>
    intro _
    rw [reduceUp, if_pos h]
    apply ih
    have := mathPi_pos
    simp only [twoPi]
    linarith
  | case2 a h => intro ha; rw [reduceUp, if_neg h]; exact ha

theorem reduceUp_congr (a : ℚ) : ∃ k : ℤ, reduceUp a = a - twoPi * k := by
  induction a using reduceUp.induct with
  | case1 a h ih =>
    obtain ⟨k, hk⟩ := ih
    refine ⟨k - 1, ?_⟩
    rw [reduceUp, if_pos h, hk]
    push_cast
    ring
  | case2 a h => exact ⟨0, by rw [reduceUp, if_neg h]; simp⟩

theorem normalizeAngle_bounds (a : ℚ) :
    -mathPi ≤ normalizeAngle a ∧ normalizeAngle a ≤ mathPi := by
  unfold normalizeAngle
  constructor
  · exact reduceUp_ge _
  · exact reduceUp_le _ (reduceDown_le _)

theorem normalizeAngle_congr (a : ℚ) :
    ∃ k : ℤ, normalizeAngle a = a - twoPi * k := by
  unfold normalizeAngle
  set a1 := if MAX_ABS_ANGLE < |a| then jsMod a twoPi else a with ha1
  obtain ⟨k1, hk1⟩ := reduceDown_congr a1
  obtain ⟨k2, hk2⟩ := reduceUp_congr (reduceDown a1)
  have hmod : ∃ k0 : ℤ, a1 = a - twoPi * k0 := by
    rw [ha1]
    split
    · exact ⟨jsTrunc (a / twoPi), rfl⟩
    · exact ⟨0, by simp⟩
  obtain ⟨k0, hk0⟩ := hmod
  refine ⟨k0 + k1 + k2, ?_⟩
  rw [hk2, hk1, hk0]
  push_cast
  ring

theorem normalizeAngle_neg_pi : normalizeAngle (-mathPi) = -mathPi := by
  have h1 : reduceDown (-mathPi) = -mathPi := by
    rw [reduceDown, if_neg (by linarith [mathPi_pos])]
  have h2 : reduceUp (-mathPi) = -mathPi := by
    rw [reduceUp, if_neg (lt_irrefl _)]
  unfold normalizeAngle
  rw [if_neg (by rw [abs_neg, abs_of_pos mathPi_pos]; norm_num [MAX_ABS_ANGLE, mathPi])]
  show reduceUp (reduceDown (-mathPi)) = -mathPi
  rw [h1, h2]

/-- C9 (amended): for every input angle, `normalizeAngle` returns a value in
the closed interval `[-π, π]` that is congruent to the input modulo `2π`.
(The half-open interval `(-π, π]` of the original claim is refuted by the
input `-π`, see the counterexample.) -/
theorem claim_C9 (a : ℚ) :
    (-mathPi ≤ normalizeAngle a ∧ normalizeAngle a ≤ mathPi) ∧
      ∃ k : ℤ, normalizeAngle a = a - twoPi * k :=
  ⟨normalizeAngle_bounds a, normalizeAngle_congr a⟩

/-- C9 counterexample: `normalizeAngle (-π) = -π`, and `-π` is not in the
half-open interval `(-π, π]`, refuting the claim that the normalized value
always lies in `(-π, π]`. -/
theorem claim_C9_counterexample :
    normalizeAngle (-mathPi) = -mathPi ∧
      ¬ (-mathPi < normalizeAngle (-mathPi) ∧ normalizeAngle (-mathPi) ≤ mathPi) := by
  refine ⟨normalizeAngle_neg_pi, ?_⟩
  rw [normalizeAngle_neg_pi]
  exact fun h => lt_irrefl _ h.1

/-! ## Anti-abuse engine (server.js: ensureAntiCheatState,
applySuspicionEscalation, isEnforcementBlocked) -/

/-- `const ANTI_CHEAT_PENALTIES_ENABLED = false;` — the source hard-disables
in-match penalties ("disable in-match penalties for now"). -/
def ANTI_CHEAT_PENALTIES_ENABLED : Bool := false

/-- `ANTI_CHEAT_MODE` is read from the environment: `observe` or `enforce`. -/
inductive ACMode where
  | observe : ACMode
  | enforce : ACMode
deriving DecidableEq, Repr

def STRIKE_WINDOW_MS : ℕ := 15000
def STRIKE_WARN_THRESHOLD : ℕ := 3
def STRIKE_SOFT_BLOCK_THRESHOLD : ℕ := 6
def STRIKE_HARD_BLOCK_THRESHOLD : ℕ := 10
def SOFT_BLOCK_MS : ℕ := 3000
def HARD_BLOCK_MS : ℕ := 8000

/-- Per-player anti-cheat strike state (`player.antiCheatState`); the level
is the source's string `'none' | 'soft' | 'hard'`. -/
structure AntiCheatState where
  windowStart : ℕ
  windowStrikes : ℕ
  warned : Bool
  level : String
  blockUntil : ℕ
  lastBlockLogAt : ℕ
deriving DecidableEq, Repr

/-- `ensureAntiCheatState(player, now)`: restart the rolling window when it
expired (`!st.windowStart || (t - st.windowStart) > STRIKE_WINDOW_MS`). -/
def ensureAntiCheatState (st : AntiCheatState) (now : ℕ) : AntiCheatState :=
  if st.windowStart = 0 ∨ STRIKE_WINDOW_MS < now - st.windowStart then
    { st with windowStart := now, windowStrikes := 0, warned := false,
              level := "none", blockUntil := 0 }
  else st

/-- `applySuspicionEscalation(player, reason, now)` restricted to its effect on
the strike state; returns the new state and the escalation action emitted
(`hardBlock` / `softBlock` / `warn`).  `st.blockUntil` is only raised when
`ANTI_CHEAT_MODE === 'enforce' && ANTI_CHEAT_PENALTIES_ENABLED`. -/
def applySuspicionEscalation (mode : ACMode) (st0 : AntiCheatState) (now : ℕ) :
    AntiCheatState × Option String :=
  let st1 := ensureAntiCheatState st0 now
  let st := { st1 with windowStrikes := st1.windowStrikes + 1 }
  let enforce : Bool := (mode = ACMode.enforce) && ANTI_CHEAT_PENALTIES_ENABLED
  if STRIKE_HARD_BLOCK_THRESHOLD ≤ st.windowStrikes then
    ({ st with level := "hard",
               blockUntil := if enforce then max st.blockUntil (now + HARD_BLOCK_MS)
                             else st.blockUntil }, some "hardBlock")
  else if STRIKE_SOFT_BLOCK_THRESHOLD ≤ st.windowStrikes then
    ({ st with level := if st.level = "hard" then st.level else "soft",
               blockUntil := if enforce then max st.blockUntil (now + SOFT_BLOCK_MS)
                             else st.blockUntil }, some "softBlock")
  else if STRIKE_WARN_THRESHOLD ≤ st.windowStrikes ∧ st.warned = false then
    ({ st with warned := true }, some "warn")
  else (st, none)

/-- `isEnforcementBlocked(player, eventName)`: returns whether the event is
rejected by an active soft/hard block.  The first guard
`if (ANTI_CHEAT_MODE !== 'enforce' || !ANTI_CHEAT_PENALTIES_ENABLED) return false;`
is embedded verbatim. -/
def isEnforcementBlocked (mode : ACMode) (st0 : AntiCheatState)
    (eventName : String) (now : ℕ) : Bool :=
  if mode ≠ ACMode.enforce ∨ ANTI_CHEAT_PENALTIES_ENABLED = false then false
  else
    let st := ensureAntiCheatState st0 now
    if st.blockUntil = 0 ∨ st.blockUntil ≤ now then false
    else (st.level = "hard" &&
            (eventName = "playerInput" || eventName = "fireProjectile")) ||
         (st.level = "soft" && eventName = "fireProjectile")

theorem isEnforcementBlocked_false (mode : ACMode) (st : AntiCheatState)
    (eventName : String) (now : ℕ) :
    isEnforcementBlocked mode st eventName now = false := by
  unfold isEnforcementBlocked
  rw [if_pos (Or.inr (show ANTI_CHEAT_PENALTIES_ENABLED = false from rfl))]

theorem applySuspicionEscalation_no_block (mode : ACMode) (st : AntiCheatState)
    (now : ℕ) :
    (applySuspicionEscalation mode st now).1.blockUntil =
      (ensureAntiCheatState st now).blockUntil := by
  simp only [applySuspicionEscalation, ANTI_CHEAT_PENALTIES_ENABLED, Bool.and_false,
    Bool.false_eq_true, if_false]
  split
  · rfl
  · split
    · rfl
    · split
      · rfl
      · rfl

/-- C1 (amended): because `ANTI_CHEAT_PENALTIES_ENABLED` is hard-coded `false`,
enforcement blocking is inert even in enforce mode: `isEnforcementBlocked`
returns `false` for every mode, strike state, event and time — no
`playerInput` or `fireProjectile` is ever rejected by a soft or hard block —
and escalation never raises a player's block deadline. -/
theorem claim_C1 (mode : ACMode) (st : AntiCheatState) (eventName : String)
    (now : ℕ) :
    isEnforcementBlocked mode st eventName now = false ∧
      (applySuspicionEscalation mode st now).1.blockUntil =
        (ensureAntiCheatState st now).blockUntil :=
  ⟨isEnforcementBlocked_false mode st eventName now,
   applySuspicionEscalation_no_block mode st now⟩

/-- C1 counterexample: in enforce mode, a player at strike level `hard` with
an unexpired block (`now = 2000 < blockUntil = 9000`, window fresh) still has
`playerInput` and `fireProjectile` pass the enforcement gate, refuting
"every playerInput and fireProjectile event from that player is rejected". -/
theorem claim_C1_counterexample :
    (isEnforcementBlocked ACMode.enforce ⟨1000, 10, true, "hard", 9000, 0⟩
        "playerInput" 2000 = false ∧
      isEnforcementBlocked ACMode.enforce ⟨1000, 10, true, "hard", 9000, 0⟩
        "fireProjectile" 2000 = false) ∧
      (2000 : ℕ) < 9000 := by
  refine ⟨⟨?_, ?_⟩, by norm_num⟩ <;> exact isEnforcementBlocked_false ..

/-! ## Lobby ready handlers (server.js: `playerReady`, `toggleReady`) -/

structure LobbyPlayer where
  name : String
  ready : Bool
  disconnected : Bool
deriving DecidableEq, Repr

structure LobbyRoom where
  leader : String
  players : List (String × LobbyPlayer)
deriving DecidableEq, Repr

def lookupPlayer (r : LobbyRoom) (key : String) : Option LobbyPlayer :=
  (r.players.find? (fun e => e.1 = key)).map (·.2)

def mapPlayer (r : LobbyRoom) (key : String) (f : LobbyPlayer → LobbyPlayer) :
    LobbyRoom :=
  { r with players := r.players.map (fun e => if e.1 = key then (e.1, f e.2) else e) }

/-- The `playerReady` handler: the leader's toggle is refused
(`if (room.leader === key) return;`), other members toggle. -/
def playerReadyStep (r : LobbyRoom) (key : String) : LobbyRoom :=
  match lookupPlayer r key with
  | none => r
  | some _ =>
      if r.leader = key then r
      else mapPlayer r key (fun p => { p with ready := !p.ready })

/-- The `toggleReady` handler: toggles the caller's ready flag with NO leader
guard (faithful to the source, which unlike `playerReady` never compares the
caller against `room.leader`). -/
def toggleReadyStep (r : LobbyRoom) (key : String) : LobbyRoom :=
  match lookupPlayer r key with
  | none => r
  | some _ => mapPlayer r key (fun p => { p with ready := !p.ready })

def c2room : LobbyRoom :=
  { leader := "L",
    players := [("L", ⟨"Alice", true, false⟩), ("B", ⟨"Bob", false, false⟩)] }

/-- C2: the code violates the leader-ready invariant.  In a two-member room
led by `"L"` with `ready = true`, a `toggleReady` event from the leader flips
the leader's ready flag to `false` while the leader key is unchanged — so the
leader is a current member with `ready = false`, contradicting the claim that
the leader cannot change its own ready flag and always has `ready = true`.
(`playerReady`, by contrast, correctly refuses the leader's toggle.) -/
theorem claim_C2 :
    (lookupPlayer (toggleReadyStep c2room "L") "L").map LobbyPlayer.ready =
        some false ∧
      (toggleReadyStep c2room "L").leader = "L" ∧
      (lookupPlayer (playerReadyStep c2room "L") "L").map LobbyPlayer.ready =
        some true := by
  decide

/-! ## Core in-room data model (player record, room aggregate) -/

/-- `player.input` — the latest validated input. -/
structure PlayerInput where
  w : Bool
  a : Bool
  s : Bool
  d : Bool
  angle : ℚ
  charging : Bool
  seq : ℕ
deriving DecidableEq, Repr

/-- `player.inputIntegrity` — toggle-spam bookkeeping. -/
structure InputIntegrity where
  lastMask : ℕ
  lastAt : ℕ
  togglePoints : ℕ
  windowStart : ℕ
deriving DecidableEq, Repr

/-- The in-room player record (the fields of the source's player object that
the verified operations read or write). -/
structure GamePlayer where
  id : String
  persistentId : Option String
  name : String
  ready : Bool
  disconnected : Bool
  x : ℚ
  y : ℚ
  angle : ℚ
  hp : ℤ
  maxHp : ℤ
  kills : ℕ
  deaths : ℕ
  killstreak : ℕ
  hasShield : Bool
  shieldExpire : ℕ
  invisible : Bool
  invisExpire : ℕ
  speedBoost : Bool
  speedExpire : ℕ
  charging : Bool
  chargeStartedAt : ℕ
  lastShotAt : ℕ
  lastUpdate : ℕ
  inputSeq : ℕ
  input : PlayerInput
  inputIntegrity : InputIntegrity
  diedAt : ℕ
  instantRespawnCharges : ℕ
  instantRespawnUsedThisMatch : Bool
  instantRespawnActiveAtMatchStart : Bool
  acState : AntiCheatState
deriving DecidableEq, Repr

/-- A projectile; of its fields only the owner is relevant to the verified
claims (kinematics are handled separately through the hit-resolution model). -/
structure Projectile where
  ownerId : String
deriving DecidableEq, Repr

/-- Association-list lookup by key (JS `obj[key]`). -/
def findVal {α : Type} (l : List (String × α)) (k : String) : Option α :=
  (l.find? (fun e => e.1 = k)).map (·.2)

/-- Replace the value stored under an existing key. -/
def replaceVal {α : Type} (l : List (String × α)) (k : String) (v : α) :
    List (String × α) :=
  l.map (fun e => if e.1 = k then (e.1, v) else e)

/-- JS assignment `obj[key] = v` (replace when present, append when absent). -/
def setVal {α : Type} (l : List (String × α)) (k : String) (v : α) :
    List (String × α) :=
  if (findVal l k).isSome then replaceVal l k v else l ++ [(k, v)]

theorem findVal_cons {α : Type} (e : String × α) (rest : List (String × α))
    (k : String) :
    findVal (e :: rest) k = if e.1 = k then some e.2 else findVal rest k := by
  by_cases he : e.1 = k
  · simp [findVal, List.find?_cons, he]
  · simp [findVal, List.find?_cons, he]

theorem replaceVal_cons {α : Type} (e : String × α) (rest : List (String × α))
    (k : String) (v : α) :
    replaceVal (e :: rest) k v =
      (if e.1 = k then (e.1, v) else e) :: replaceVal rest k v := rfl

theorem findVal_replaceVal_self {α : Type} (l : List (String × α)) (k : String)
    (v : α) (h : (findVal l k).isSome) : findVal (replaceVal l k v) k = some v := by
  induction l with
  | nil => simp [findVal] at h
  | cons e rest ih =>
    rw [replaceVal_cons]
    by_cases he : e.1 = k
    · rw [if_pos he, findVal_cons, if_pos he]
    · rw [if_neg he, findVal_cons, if_neg he]
      rw [findVal_cons, if_neg he] at h
      exact ih h

theorem findVal_replaceVal_ne {α : Type} (l : List (String × α)) (k k' : String)
    (v : α) (h : k' ≠ k) : findVal (replaceVal l k v) k' = findVal l k' := by
  induction l with
  | nil => rfl
  | cons e rest ih =>
    rw [replaceVal_cons]
    by_cases he : e.1 = k
    · have he' : ¬ e.1 = k' := fun hc => h (by rw [← hc, he])
      rw [if_pos he, findVal_cons, findVal_cons]
      dsimp only
      rw [if_neg he', if_neg he']
      exact ih
    · rw [if_neg he, findVal_cons, findVal_cons]
      by_cases he' : e.1 = k'
      · rw [if_pos he', if_pos he']
      · rw [if_neg he', if_neg he']
        exact ih

theorem findVal_append_single_self {α : Type} (l : List (String × α))
    (k : String) (v : α) (h : findVal l k = none) :
    findVal (l ++ [(k, v)]) k = some v := by
  induction l with
  | nil => simp [findVal_cons]
  | cons e rest ih =>
    rw [List.cons_append, findVal_cons]
    rw [findVal_cons] at h
    by_cases he : e.1 = k
    · rw [if_pos he] at h
      exact absurd h (by simp)
    · rw [if_neg he] at h
      rw [if_neg he]
      exact ih h

theorem findVal_append_single_ne {α : Type} (l : List (String × α))
    (k k' : String) (v : α) (h : k' ≠ k) :
    findVal (l ++ [(k, v)]) k' = findVal l k' := by
  induction l with
  | nil => simp [findVal_cons, Ne.symm h, findVal]
  | cons e rest ih =>
    rw [List.cons_append, findVal_cons, findVal_cons]
    by_cases he : e.1 = k'
    · rw [if_pos he, if_pos he]
    · rw [if_neg he, if_neg he]
      exact ih

theorem findVal_setVal_self {α : Type} (l : List (String × α)) (k : String)
    (v : α) : findVal (setVal l k v) k = some v := by
  unfold setVal
  split
  · exact findVal_replaceVal_self l k v ‹_›
  · rename_i h
    exact findVal_append_single_self l k v (Option.not_isSome_iff_eq_none.mp h)

theorem findVal_setVal_ne {α : Type} (l : List (String × α)) (k k' : String)
    (v : α) (h : k' ≠ k) : findVal (setVal l k v) k' = findVal l k' := by
  unfold setVal
  split
  · exact findVal_replaceVal_ne l k k' v h
  · exact findVal_append_single_ne l k k' v h

/-- `const PLAYER_SPAWNS = [...]` (id omitted; only coordinates are used). -/
def PLAYER_SPAWNS : List (ℚ × ℚ) :=
  [(200, 200), (2800, 200), (200, 1800), (2800, 1800), (1500, 150), (1500, 1850)]

/-- One entry of the final-results snapshot (`clonePlayersForResults`); the
profile/friend-code/username/headshot fields of the source snapshot are not
modelled on the player record and are omitted. -/
structure ResultPlayer where
  id : String
  persistentId : Option String
  name : String
  x : ℚ
  y : ℚ
  angle : ℚ
  hp : ℤ
  maxHp : ℤ
  kills : ℕ
  deaths : ℕ
  killstreak : ℕ
  disconnected : Bool
deriving DecidableEq, Repr

/-- The room aggregate (fields used by the verified operations; a `null`
`gameStartTime` is modelled as 0). -/
structure Room where
  code : String
  state : String
  leader : String
  map : String
  gameStartTime : ℕ
  nextSpawnIndex : ℕ
  players : List (String × GamePlayer)
  projectiles : List Projectile
  lastMatchResults : Option (List (String × ResultPlayer))
  lastMatchEndedAt : ℕ
deriving DecidableEq, Repr

/-- `getNextSpawn(roomCode)`: take `PLAYER_SPAWNS[room.nextSpawnIndex]` and
advance the round-robin index modulo the spawn count.  (The index is kept in
range by the modulo; out-of-range access cannot occur.) -/
def getNextSpawn (room : Room) : (ℚ × ℚ) × Room :=
  (PLAYER_SPAWNS.getD room.nextSpawnIndex (0, 0),
   { room with nextSpawnIndex := (room.nextSpawnIndex + 1) % PLAYER_SPAWNS.length })

/-! ## Respawn (server.js `respawnRoomPlayer`) -/

/-- `respawnRoomPlayer(roomCode, player)`: returns `false` without touching
anything when the player is missing or alive (`if (player.hp > 0) return
false;`); otherwise moves the player to the next round-robin spawn, resets
HP/maxHP to 3, clears buffs/charging/lastShot/diedAt, resets the input to
idle while carrying the sequence high-water mark, and returns `true`. -/
def respawnRoomPlayer (room : Room) (key : String) : Bool × Room :=
  match findVal room.players key with
  | none => (false, room)
  | some p =>
      if 0 < p.hp then (false, room)
      else
        let carrySeq := p.inputSeq
        let sr := getNextSpawn room
        let p' : GamePlayer :=
          { p with
            x := sr.1.1, y := sr.1.2,
            maxHp := 3, hp := 3,
            hasShield := false, shieldExpire := 0,
            invisible := false, invisExpire := 0,
            speedBoost := false, speedExpire := 0,
            charging := false, chargeStartedAt := 0,
            lastShotAt := 0,
            inputSeq := carrySeq,
            input := { w := false, a := false, s := false, d := false,
                       angle := p.angle, charging := false, seq := carrySeq },
            inputIntegrity := { lastMask := 0, lastAt := 0, togglePoints := 0,
                                windowStart := 0 },
            diedAt := 0 }
        (true, { sr.2 with players := replaceVal sr.2.players key p' })

theorem respawn_alive_noop (room : Room) (key : String) (p : GamePlayer)
    (hfind : findVal room.players key = some p) (hhp : 0 < p.hp) :
    respawnRoomPlayer room key = (false, room) := by
  unfold respawnRoomPlayer
  rw [hfind]
  exact if_pos hhp

theorem respawn_success_sets_hp (room : Room) (key : String) (p : GamePlayer)
    (hfind : findVal room.players key = some p) (hhp : ¬ 0 < p.hp) :
    ∃ p', findVal (respawnRoomPlayer room key).2.players key = some p' ∧
      p'.hp = 3 ∧ (respawnRoomPlayer room key).1 = true := by
  unfold respawnRoomPlayer
  rw [hfind]
  dsimp only
  rw [if_neg hhp]
  exact ⟨_, findVal_replaceVal_self room.players key _ (by rw [hfind]; rfl), rfl, rfl⟩

/-- C10: `respawnRoomPlayer` refuses a living player — for every player with
HP > 0 it returns `false` and leaves the room (players, spawn index,
everything) unchanged — and a successful respawn sets the player's HP to 3,
so applying `respawnRoomPlayer` again right after a successful respawn is a
no-op: a dead player is respawned at most once per death even though both the
3000 ms timer of `handleKill` and the per-tick died-at check schedule it. -/
theorem claim_C10 (room : Room) (key : String) (p : GamePlayer)
    (hfind : findVal room.players key = some p) :
    (0 < p.hp → respawnRoomPlayer room key = (false, room)) ∧
      ((respawnRoomPlayer room key).1 = true →
        respawnRoomPlayer (respawnRoomPlayer room key).2 key =
          (false, (respawnRoomPlayer room key).2)) := by
  constructor
  · exact fun hhp => respawn_alive_noop room key p hfind hhp
  · intro hs
    by_cases hhp : 0 < p.hp
    · rw [respawn_alive_noop room key p hfind hhp] at hs
      simp at hs
    · obtain ⟨p', hp', hhp3, _⟩ := respawn_success_sets_hp room key p hfind hhp
      exact respawn_alive_noop _ key p' hp' (by rw [hhp3]; norm_num)

/-- A concrete baseline player record used by witnesses. -/
def basePlayer : GamePlayer :=
  { id := "p1", persistentId := some "pid1", name := "P", ready := true,
    disconnected := false, x := 100, y := 100, angle := 0, hp := 3, maxHp := 3,
    kills := 0, deaths := 0, killstreak := 0, hasShield := false,
    shieldExpire := 0, invisible := false, invisExpire := 0, speedBoost := false,
    speedExpire := 0, charging := false, chargeStartedAt := 0, lastShotAt := 0,
    lastUpdate := 0, inputSeq := 0,
    input := { w := false, a := false, s := false, d := false, angle := 0,
               charging := false, seq := 0 },
    inputIntegrity := { lastMask := 0, lastAt := 0, togglePoints := 0,
                        windowStart := 0 },
    diedAt := 0, instantRespawnCharges := 0, instantRespawnUsedThisMatch := false,
    instantRespawnActiveAtMatchStart := false,
    acState := { windowStart := 0, windowStrikes := 0, warned := false,
                 level := "none", blockUntil := 0, lastBlockLogAt := 0 } }

def c10room : Room :=
  { code := "12345", state := "playing", leader := "p1", map := "forest",
    gameStartTime := 0, nextSpawnIndex := 0,
    players := [("p1", basePlayer)], projectiles := [],
    lastMatchResults := none, lastMatchEndedAt := 0 }

theorem claim_C10_witness :
    findVal c10room.players "p1" = some basePlayer ∧
      (0 < basePlayer.hp →
        respawnRoomPlayer c10room "p1" = (false, c10room)) := by
  have h := claim_C10 c10room "p1" basePlayer (by rfl)
  exact ⟨by rfl, h.1⟩

/-! ## Projectile hit resolution (server.js `updateProjectiles`, hit branch) -/

/-- `PROJECTILE_HEADSHOT_RADIUS = 8 + 3 + 5 = 16`. -/
def PROJECTILE_HEADSHOT_RADIUS : ℚ := 16

/-- `PROJECTILE_HIT_RADIUS = 18 + 3 = 21`. -/
def PROJECTILE_HIT_RADIUS : ℚ := 21

/-- Outcome of the best-hit consequence block of `updateProjectiles`. -/
structure HitResolution where
  victim : GamePlayer
  hitType : String
  headshot : Bool
  shieldBreak : Bool
  victimDied : Bool
deriving DecidableEq, Repr

/-- The hit-consequence block: `distSq` is the squared closest-point distance
from the swept segment to the victim centre (the source compares
`Math.sqrt(distSq) ≤ 16`, i.e. `distSq ≤ 16²`).  A shield blocks exactly one
hit (even a headshot) leaving HP untouched; otherwise a headshot zeroes HP
and a body hit subtracts 1. -/
def resolveProjectileHit (victim : GamePlayer) (distSq : ℚ) : HitResolution :=
  let isHeadshot : Bool := distSq ≤ PROJECTILE_HEADSHOT_RADIUS ^ 2
  let blockedByShield := victim.hasShield
  let headshot := !blockedByShield && isHeadshot
  let hitType := if blockedByShield then "shield" else "player"
  if blockedByShield then
    { victim := { victim with hasShield := false }, hitType := hitType,
      headshot := headshot, shieldBreak := true, victimDied := false }
  else
    let newHp : ℤ := if headshot then 0 else victim.hp - 1
    { victim := { victim with hp := newHp }, hitType := hitType,
      headshot := headshot, shieldBreak := false, victimDied := newHp ≤ 0 }

/-- C4: for a projectile hit on a living victim — if the victim holds a
shield, the shield is consumed, a shield-break is emitted and HP is unchanged
(even within headshot range); otherwise a closest-point distance ≤ 16 is a
headshot setting HP to 0 regardless of current HP, and any other hit
subtracts exactly 1 HP. -/
theorem claim_C4 (victim : GamePlayer) (distSq : ℚ) (hlive0 : 0 < victim.hp) :
    (victim.hasShield = true →
      (resolveProjectileHit victim distSq).victim.hasShield = false ∧
        (resolveProjectileHit victim distSq).shieldBreak = true ∧
        (resolveProjectileHit victim distSq).victim.hp = victim.hp ∧
        (resolveProjectileHit victim distSq).headshot = false) ∧
      (victim.hasShield = false → distSq ≤ PROJECTILE_HEADSHOT_RADIUS ^ 2 →
        (resolveProjectileHit victim distSq).victim.hp = 0 ∧
          (resolveProjectileHit victim distSq).headshot = true) ∧
      (victim.hasShield = false → PROJECTILE_HEADSHOT_RADIUS ^ 2 < distSq →
        (resolveProjectileHit victim distSq).victim.hp = victim.hp - 1) := by
  unfold resolveProjectileHit
  refine ⟨fun hs => ?_, fun hs hd => ?_, fun hs hd => ?_⟩
  · simp [hs]
  · simp [hs, hd]
  · simp [hs, not_le.mpr hd]

theorem claim_C4_witness :
    (0 < basePlayer.hp) ∧
      (({ basePlayer with hasShield := true } : GamePlayer).hasShield = true →
        (resolveProjectileHit { basePlayer with hasShield := true } 4).victim.hasShield = false ∧
          (resolveProjectileHit { basePlayer with hasShield := true } 4).shieldBreak = true ∧
          (resolveProjectileHit { basePlayer with hasShield := true } 4).victim.hp =
            ({ basePlayer with hasShield := true } : GamePlayer).hp ∧
          (resolveProjectileHit { basePlayer with hasShield := true } 4).headshot = false) :=
  ⟨by norm_num [basePlayer],
   (claim_C4 { basePlayer with hasShield := true } 4
      (by norm_num [basePlayer])).1⟩

/-! ## Map catalog and player-obstacle collision (server.js `MAP_CONFIGS`,
`isPlayerColliding`) -/

/-- A map object; only the fields read by the collision tests are kept
(`h` is never read by them).  Solid objects carry `w`, ellipses carry
`width`/`height`. -/
structure MapObject where
  type : String
  x : ℚ
  y : ℚ
  w : Option ℚ
  width : Option ℚ
  height : Option ℚ
deriving DecidableEq, Repr

def tr (x y : ℚ) : MapObject := ⟨"tree", x, y, some 60, none, none⟩

def rk (x y w : ℚ) : MapObject := ⟨"rock", x, y, some w, none, none⟩

def cact (x y : ℚ) : MapObject := ⟨"cactus", x, y, some 40, none, none⟩

def pond (x y w h : ℚ) : MapObject := ⟨"pond", x, y, none, some w, some h⟩

def chasm (x y w h : ℚ) : MapObject := ⟨"chasm", x, y, none, some w, some h⟩

def lake (x y w h : ℚ) : MapObject := ⟨"lake", x, y, none, some w, some h⟩

def skel (x y : ℚ) : MapObject := ⟨"skeleton", x, y, none, none, none⟩

def forestObjects : List MapObject :=
  [tr 400 400, tr 500 350, tr 650 300, tr 800 250, tr 2200 300, tr 2400 350,
   tr 2600 400, tr 2700 500, tr 350 600, tr 300 800, tr 2750 800, tr 2700 1100,
   tr 300 1200, tr 350 1400, tr 2750 1200, tr 2700 1500, tr 400 1600,
   tr 600 1700, tr 2200 1700, tr 2400 1650, tr 1000 800, tr 1100 850,
   tr 1200 900, tr 1800 800, tr 1900 850, tr 2000 900, tr 1000 1200,
   tr 1100 1150, tr 1800 1200, tr 1900 1150,
   pond 800 600 120 80, pond 2200 1400 130 90, pond 1500 500 110 75,
   skel 900 1000, skel 1700 1100, skel 1200 600, skel 2100 800]

def canyonObjects : List MapObject :=
  [rk 450 450 90, rk 700 350 100, rk 900 300 85, rk 2100 300 95,
   rk 2350 350 90, rk 2550 450 100, rk 350 700 85, rk 300 950 90,
   rk 2700 700 95, rk 2750 950 100, rk 300 1300 85, rk 350 1500 90,
   rk 2700 1300 95, rk 2650 1550 100, rk 450 1650 85, rk 700 1700 90,
   rk 2100 1700 95, rk 2350 1650 100, rk 1000 700 110, rk 1200 750 95,
   rk 1400 800 100, rk 1600 750 90, rk 1800 700 105, rk 2000 750 95,
   rk 1000 1300 100, rk 1200 1250 90, rk 1400 1200 110, rk 1600 1250 95,
   rk 1800 1300 100, rk 2000 1250 90,
   chasm 1100 500 140 90, chasm 1900 1500 150 100,
   cact 500 1000, cact 2500 1000, cact 1500 400, cact 1500 1600]

def islandObjects : List MapObject :=
  [lake 1500 1000 500 350, lake 500 500 300 200, lake 2500 500 300 200,
   lake 500 1500 300 200, lake 2500 1500 300 200,
   tr 900 400, tr 1000 350, tr 2100 350, tr 2000 400, tr 900 1650,
   tr 1000 1700, tr 2000 1650, tr 2100 1700,
   rk 1000 800 80, rk 1200 850 85, rk 1800 850 90, rk 2000 800 80,
   rk 1000 1200 85, rk 1200 1150 80, rk 1800 1150 90, rk 2000 1200 85]

def MAP_CONFIGS : List (String × List MapObject) :=
  [("forest", forestObjects), ("canyon", canyonObjects), ("island", islandObjects)]

def MAP_WIDTH : ℚ := 3000

def MAP_HEIGHT : ℚ := 2000

def BASE_SPEED_PER_SEC : ℚ := 12705 / 100

/-- JS `o.w || o.width` (0 and undefined are falsy). -/
def jsOrQ (a b : Option ℚ) : ℚ :=
  match a with
  | some v => if v = 0 then b.getD 0 else v
  | none => b.getD 0

def SOLID_OBSTACLE_TYPES : List String :=
  ["tree", "rock", "lake", "pond", "chasm", "cactus"]

def ELLIPSE_OBSTACLE_TYPES : List String := ["lake", "pond", "chasm"]

/-- One obstacle test of `isPlayerColliding`: ellipse containment padded by
`18/width` for water/chasm, circle-to-circle with radius `18 + w/2` for
solid props.  The source compares `Math.sqrt(d) < r` with `r > 0`; this is
embedded as `d < r²`.  (Ellipse objects always carry `width`/`height` in the
map data, so the `getD 0` default is never taken.) -/
def playerCollidesWith (nx ny : ℚ) (o : MapObject) : Prop :=
  o.type ∈ SOLID_OBSTACLE_TYPES ∧
    (if o.type ∈ ELLIPSE_OBSTACLE_TYPES then
      ((nx - o.x) / (o.width.getD 0 / 2)) ^ 2 + ((ny - o.y) / (o.height.getD 0 / 2)) ^ 2
        < (1 + 18 / o.width.getD 0) ^ 2
    else
      (nx - o.x) ^ 2 + (ny - o.y) ^ 2 < (18 + jsOrQ o.w o.width / 2) ^ 2)

instance (nx ny : ℚ) (o : MapObject) : Decidable (playerCollidesWith nx ny o) := by
  unfold playerCollidesWith
  infer_instance

/-- `isPlayerColliding(mapKey, nx, ny)`: some obstacle of the active map
collides with the proposed player position (unknown map ⇒ no collision). -/
def isPlayerColliding (mapKey : String) (nx ny : ℚ) : Prop :=
  match findVal MAP_CONFIGS mapKey with
  | none => False
  | some objs => ∃ o ∈ objs, playerCollidesWith nx ny o

instance (mapKey : String) (nx ny : ℚ) : Decidable (isPlayerColliding mapKey nx ny) := by
  unfold isPlayerColliding
  cases findVal MAP_CONFIGS mapKey
  · exact inferInstanceAs (Decidable False)
  · exact List.decidableBEx _ _

/-- Horizontal half-extent of an obstacle's collision test: the circle test
`d² < (18 + w/2)²` cannot fire once `|nx − o.x| ≥ 18 + w/2`, and the padded
ellipse test cannot fire once `|nx − o.x| ≥ w/2 + 9 = (w/2)·(1 + 18/w)`. -/
def clearRadX (o : MapObject) : ℚ :=
  if o.type ∈ ELLIPSE_OBSTACLE_TYPES then o.width.getD 0 / 2 + 9
  else 18 + jsOrQ o.w o.width / 2

/-- Vertical half-extent of an obstacle's collision test (the ellipse pad
`18/width` scales the height semi-axis by `1 + 18/width`). -/
def clearRadY (o : MapObject) : ℚ :=
  if o.type ∈ ELLIPSE_OBSTACLE_TYPES
  then o.height.getD 0 / 2 * (1 + 18 / o.width.getD 0)
  else 18 + jsOrQ o.w o.width / 2

/-- The obstacle's whole collision region keeps clear of the clamp border
lines `x = 20`, `x = MAP_WIDTH − 20`, `y = 20`, `y = MAP_HEIGHT − 20` (with
well-formed ellipse axes).  Every obstacle of the three shipped maps
satisfies this. -/
def borderClear (o : MapObject) : Prop :=
  (o.type ∈ ELLIPSE_OBSTACLE_TYPES →
    0 < o.width.getD 0 ∧ 0 < o.height.getD 0) ∧
  0 ≤ clearRadX o ∧ 0 ≤ clearRadY o ∧
  20 + clearRadX o ≤ o.x ∧ o.x + clearRadX o ≤ MAP_WIDTH - 20 ∧
  20 + clearRadY o ≤ o.y ∧ o.y + clearRadY o ≤ MAP_HEIGHT - 20

theorem no_collide_of_far_x (o : MapObject) (nx ny : ℚ) (hbc : borderClear o)
    (hfar : clearRadX o ≤ |nx - o.x|) : ¬ playerCollidesWith nx ny o := by
  obtain ⟨hpos, hrx0, -, -, -, -, -⟩ := hbc
  unfold playerCollidesWith
  rintro ⟨-, hlt⟩
  by_cases he : o.type ∈ ELLIPSE_OBSTACLE_TYPES
  · rw [if_pos he] at hlt
    obtain ⟨hw, -⟩ := hpos he
    have hw' : o.width.getD 0 ≠ 0 := ne_of_gt hw
    simp only [clearRadX] at hfar
    rw [if_pos he] at hfar
    have hsq : (o.width.getD 0 / 2 + 9) ^ 2 ≤ (nx - o.x) ^ 2 := by
      rw [← sq_abs (nx - o.x)]
      exact pow_le_pow_left (by linarith) hfar 2
    have hmul : (1 + 18 / o.width.getD 0) * (o.width.getD 0 / 2) =
        o.width.getD 0 / 2 + 9 := by
      field_simp
      ring
    have hkey : (1 + 18 / o.width.getD 0) ^ 2 ≤
        ((nx - o.x) / (o.width.getD 0 / 2)) ^ 2 := by
      rw [div_pow, le_div_iff (pow_pos (by linarith) 2)]
      calc (1 + 18 / o.width.getD 0) ^ 2 * (o.width.getD 0 / 2) ^ 2
          = ((1 + 18 / o.width.getD 0) * (o.width.getD 0 / 2)) ^ 2 := by ring
        _ = (o.width.getD 0 / 2 + 9) ^ 2 := by rw [hmul]
        _ ≤ (nx - o.x) ^ 2 := hsq
    have h0 := sq_nonneg ((ny - o.y) / (o.height.getD 0 / 2))
    linarith
  · rw [if_neg he] at hlt
    simp only [clearRadX] at hfar hrx0
    rw [if_neg he] at hfar hrx0
    have hsq : (18 + jsOrQ o.w o.width / 2) ^ 2 ≤ (nx - o.x) ^ 2 := by
      rw [← sq_abs (nx - o.x)]
      exact pow_le_pow_left hrx0 hfar 2
    have h0 := sq_nonneg (ny - o.y)
    linarith

theorem no_collide_of_far_y (o : MapObject) (nx ny : ℚ) (hbc : borderClear o)
    (hfar : clearRadY o ≤ |ny - o.y|) : ¬ playerCollidesWith nx ny o := by
  obtain ⟨hpos, -, hry0, -, -, -, -⟩ := hbc
  unfold playerCollidesWith
  rintro ⟨-, hlt⟩
  by_cases he : o.type ∈ ELLIPSE_OBSTACLE_TYPES
  · rw [if_pos he] at hlt
    obtain ⟨hw, hh⟩ := hpos he
    simp only [clearRadY] at hfar
    rw [if_pos he] at hfar
    have h18 : (0:ℚ) < 1 + 18 / o.width.getD 0 := by
      have := div_pos (show (0:ℚ) < 18 by norm_num) hw
      linarith
    have hprod : (0:ℚ) ≤ o.height.getD 0 / 2 * (1 + 18 / o.width.getD 0) :=
      le_of_lt (mul_pos (by linarith) h18)
    have hsq : (o.height.getD 0 / 2 * (1 + 18 / o.width.getD 0)) ^ 2 ≤
        (ny - o.y) ^ 2 := by
      rw [← sq_abs (ny - o.y)]
      exact pow_le_pow_left hprod hfar 2
    have hkey : (1 + 18 / o.width.getD 0) ^ 2 ≤
        ((ny - o.y) / (o.height.getD 0 / 2)) ^ 2 := by
      rw [div_pow, le_div_iff (pow_pos (by linarith) 2)]
      calc (1 + 18 / o.width.getD 0) ^ 2 * (o.height.getD 0 / 2) ^ 2
          = (o.height.getD 0 / 2 * (1 + 18 / o.width.getD 0)) ^ 2 := by ring
        _ ≤ (ny - o.y) ^ 2 := hsq
    have h0 := sq_nonneg ((nx - o.x) / (o.width.getD 0 / 2))
    linarith
  · rw [if_neg he] at hlt
    simp only [clearRadY] at hfar hry0
    rw [if_neg he] at hfar hry0
    have hsq : (18 + jsOrQ o.w o.width / 2) ^ 2 ≤ (ny - o.y) ^ 2 := by
      rw [← sq_abs (ny - o.y)]
      exact pow_le_pow_left hry0 hfar 2
    have h0 := sq_nonneg (nx - o.x)
    linarith

set_option maxHeartbeats 1600000 in
theorem forest_borderClear : ∀ o ∈ forestObjects, borderClear o := by
  intro o ho
  fin_cases ho <;>
    simp only [borderClear, clearRadX, clearRadY, ELLIPSE_OBSTACLE_TYPES, jsOrQ,
      tr, pond, skel, MAP_WIDTH, MAP_HEIGHT, String.reduceEq, List.mem_cons,
      List.not_mem_nil, or_self, or_false, false_or, not_false_eq_true,
      and_true, true_and, false_implies, true_implies, reduceIte,
      Option.getD_some, Option.getD_none] <;>
    norm_num

set_option maxHeartbeats 1600000 in
theorem canyon_borderClear : ∀ o ∈ canyonObjects, borderClear o := by
  intro o ho
  fin_cases ho <;>
    simp only [borderClear, clearRadX, clearRadY, ELLIPSE_OBSTACLE_TYPES, jsOrQ,
      rk, chasm, cact, MAP_WIDTH, MAP_HEIGHT, String.reduceEq, List.mem_cons,
      List.not_mem_nil, or_self, or_false, false_or, not_false_eq_true,
      and_true, true_and, false_implies, true_implies, reduceIte,
      Option.getD_some, Option.getD_none] <;>
    norm_num

set_option maxHeartbeats 1600000 in
theorem island_borderClear : ∀ o ∈ islandObjects, borderClear o := by
  intro o ho
  fin_cases ho <;>
    simp only [borderClear, clearRadX, clearRadY, ELLIPSE_OBSTACLE_TYPES, jsOrQ,
      lake, tr, rk, MAP_WIDTH, MAP_HEIGHT, String.reduceEq, List.mem_cons,
      List.not_mem_nil, or_self, or_false, false_or, not_false_eq_true,
      and_true, true_and, false_implies, true_implies, reduceIte,
      Option.getD_some, Option.getD_none] <;>
    norm_num

theorem findVal_MAP_CONFIGS_cases (k : String) (objs : List MapObject)
    (h : findVal MAP_CONFIGS k = some objs) :
    objs = forestObjects ∨ objs = canyonObjects ∨ objs = islandObjects := by
  unfold MAP_CONFIGS at h
  rw [findVal_cons] at h
  dsimp only at h
  by_cases h1 : "forest" = k
  · rw [if_pos h1] at h
    exact Or.inl (Option.some.inj h).symm
  · rw [if_neg h1, findVal_cons] at h
    dsimp only at h
    by_cases h2 : "canyon" = k
    · rw [if_pos h2] at h
      exact Or.inr (Or.inl (Option.some.inj h).symm)
    · rw [if_neg h2, findVal_cons] at h
      dsimp only at h
      by_cases h3 : "island" = k
      · rw [if_pos h3] at h
        exact Or.inr (Or.inr (Option.some.inj h).symm)
      · rw [if_neg h3] at h
        exact absurd h (by simp [findVal])

/-- A point on any of the four clamp border lines collides with no obstacle
of any map: every shipped obstacle keeps its collision region clear of those
lines. -/
theorem border_no_collide (mapKey : String) (nx ny : ℚ)
    (hb : nx = 20 ∨ nx = MAP_WIDTH - 20 ∨ ny = 20 ∨ ny = MAP_HEIGHT - 20) :
    ¬ isPlayerColliding mapKey nx ny := by
  unfold isPlayerColliding
  cases hf : findVal MAP_CONFIGS mapKey with
  | none => exact not_false
  | some objs =>
    rintro ⟨o, ho, hcol⟩
    have hbc : borderClear o := by
      rcases findVal_MAP_CONFIGS_cases mapKey objs hf with rfl | rfl | rfl
      · exact forest_borderClear o ho
      · exact canyon_borderClear o ho
      · exact island_borderClear o ho
    rcases hb with hx | hx | hy | hy
    · exact no_collide_of_far_x o nx ny hbc
        (le_abs.mpr (Or.inr (by rw [hx]; linarith [hbc.2.2.2.1]))) hcol
    · exact no_collide_of_far_x o nx ny hbc
        (le_abs.mpr (Or.inl (by rw [hx]; linarith [hbc.2.2.2.2.1]))) hcol
    · exact no_collide_of_far_y o nx ny hbc
        (le_abs.mpr (Or.inr (by rw [hy]; linarith [hbc.2.2.2.2.2.1]))) hcol
    · exact no_collide_of_far_y o nx ny hbc
        (le_abs.mpr (Or.inl (by rw [hy]; linarith [hbc.2.2.2.2.2.2]))) hcol

theorem clamp_cases (a lo hi : ℚ) :
    max lo (min a hi) = a ∨ max lo (min a hi) = lo ∨ max lo (min a hi) = hi := by
  rcases le_total a hi with h1 | h1
  · rw [min_eq_left h1]
    rcases le_total lo a with h2 | h2
    · exact Or.inl (max_eq_right h2)
    · exact Or.inr (Or.inl (max_eq_left h2))
  · rw [min_eq_right h1]
    rcases le_total lo hi with h3 | h3
    · exact Or.inr (Or.inr (max_eq_right h3))
    · exact Or.inr (Or.inl (max_eq_left h3))

/-! ## Per-tick player movement (server.js `updatePlayers`, living branch) -/

/-- Timed-buff expiry at the top of the living-player branch
(`if (player.hasShield && player.shieldExpire && now > player.shieldExpire) ...`). -/
def expireBuffs (p : GamePlayer) (now : ℕ) : GamePlayer :=
  { p with
    hasShield := if p.hasShield ∧ p.shieldExpire ≠ 0 ∧ p.shieldExpire < now
                 then false else p.hasShield,
    invisible := if p.invisible ∧ p.invisExpire ≠ 0 ∧ p.invisExpire < now
                 then false else p.invisible,
    speedBoost := if p.speedBoost ∧ p.speedExpire ≠ 0 ∧ p.speedExpire < now
                  then false else p.speedBoost }

/-- Proposed new position from the latest validated input: base speed
127.05 px/s, ×1.25 with speed boost, ×0.5 while charging; WASD compose the
displacement.  When the displacement is diagonal the source rescales by
`step / Math.sqrt(dx² + dy²)` (irrational in exact arithmetic); that factor
is the `diagScale` parameter, and the verified properties hold for every
value of it. -/
def proposedPosition (p : GamePlayer) (dt diagScale : ℚ) : ℚ × ℚ :=
  let speed0 := BASE_SPEED_PER_SEC
  let speed1 := if p.speedBoost then speed0 * (5 / 4) else speed0
  let speed := if p.input.charging then speed1 * (1 / 2) else speed1
  let step := speed * dt
  let dx := (if p.input.d then step else 0) - (if p.input.a then step else 0)
  let dy := (if p.input.s then step else 0) - (if p.input.w then step else 0)
  let dx2 := if dx ≠ 0 ∧ dy ≠ 0 then dx * diagScale else dx
  let dy2 := if dx ≠ 0 ∧ dy ≠ 0 then dy * diagScale else dy
  (p.x + dx2, p.y + dy2)

/-- The adopt-or-reject step: a colliding proposal is cancelled (the player
keeps its position this tick), a non-colliding proposal is clamped to
`[20, MAP_WIDTH−20] × [20, MAP_HEIGHT−20]`.  Note the source tests collision
on the **unclamped** proposal and clamps afterwards. -/
def clampedTarget (mapKey : String) (p : GamePlayer) (pos : ℚ × ℚ) : ℚ × ℚ :=
  if isPlayerColliding mapKey pos.1 pos.2 then (p.x, p.y)
  else (max 20 (min pos.1 (MAP_WIDTH - 20)), max 20 (min pos.2 (MAP_HEIGHT - 20)))

/-- One `updatePlayers` iteration for a single player (motion part; dead
players are handled by the respawn branch instead, and disconnected players
only expire buffs). -/
def movePlayerStep (mapKey : String) (p0 : GamePlayer) (dt diagScale : ℚ)
    (now : ℕ) : GamePlayer :=
  if p0.hp ≤ 0 then p0
  else
    let p := expireBuffs p0 now
    if p.disconnected then p
    else
      let pos := clampedTarget mapKey p (proposedPosition p dt diagScale)
      { p with x := pos.1, y := pos.2,
               angle := if p.input.angle = 0 then p.angle else p.input.angle,
               charging := p.input.charging }

/-- C7 (amended): for a living, connected player, one tick (i) rejects a
proposed position that collides with an obstacle of the active map, leaving
the position unchanged, (ii) otherwise adopts the clamped proposal — landing
in the **closed** box `[20, MAP_WIDTH−20] × [20, MAP_HEIGHT−20]` (the
original claim's *open* interval is refuted by the clamp, which produces the
boundary value 20 exactly; see the counterexample) — and (iii) never moves a
player that is outside every obstacle into an obstacle: the source tests
collision on the unclamped proposal, but every obstacle of the three shipped
maps keeps its collision region clear of the clamp border lines, so a
clamped coordinate cannot land inside one. -/
theorem claim_C7 (mapKey : String) (p : GamePlayer) (dt diagScale : ℚ) (now : ℕ)
    (hlive : 0 < p.hp) (hconn : p.disconnected = false) :
    (isPlayerColliding mapKey
        (proposedPosition (expireBuffs p now) dt diagScale).1
        (proposedPosition (expireBuffs p now) dt diagScale).2 →
      (movePlayerStep mapKey p dt diagScale now).x = p.x ∧
        (movePlayerStep mapKey p dt diagScale now).y = p.y) ∧
      (¬ isPlayerColliding mapKey
          (proposedPosition (expireBuffs p now) dt diagScale).1
          (proposedPosition (expireBuffs p now) dt diagScale).2 →
        20 ≤ (movePlayerStep mapKey p dt diagScale now).x ∧
          (movePlayerStep mapKey p dt diagScale now).x ≤ MAP_WIDTH - 20 ∧
          20 ≤ (movePlayerStep mapKey p dt diagScale now).y ∧
          (movePlayerStep mapKey p dt diagScale now).y ≤ MAP_HEIGHT - 20) ∧
      (¬ isPlayerColliding mapKey p.x p.y →
        ¬ isPlayerColliding mapKey
            (movePlayerStep mapKey p dt diagScale now).x
            (movePlayerStep mapKey p dt diagScale now).y) := by
  have hdisc : ¬ ((expireBuffs p now).disconnected = true) := by
    rw [show (expireBuffs p now).disconnected = p.disconnected from rfl, hconn]
    simp
  unfold movePlayerStep
  rw [if_neg (not_le.mpr hlive), if_neg hdisc]
  refine ⟨?_, ?_, ?_⟩
  · intro hcol
    dsimp only
    unfold clampedTarget
    rw [if_pos hcol]
    exact ⟨rfl, rfl⟩
  · intro hcol
    dsimp only
    unfold clampedTarget
    rw [if_neg hcol]
    exact ⟨le_max_left _ _,
           max_le (by norm_num [MAP_WIDTH]) (min_le_right _ _),
           le_max_left _ _,
           max_le (by norm_num [MAP_HEIGHT]) (min_le_right _ _)⟩
  · intro hpre
    dsimp only
    unfold clampedTarget
    by_cases hcol : isPlayerColliding mapKey
        (proposedPosition (expireBuffs p now) dt diagScale).1
        (proposedPosition (expireBuffs p now) dt diagScale).2
    · rw [if_pos hcol]
      rw [show (expireBuffs p now).x = p.x from rfl,
          show (expireBuffs p now).y = p.y from rfl]
      exact hpre
    · rw [if_neg hcol]
      rcases clamp_cases (proposedPosition (expireBuffs p now) dt diagScale).1
          20 (MAP_WIDTH - 20) with hx | hx | hx <;>
        rcases clamp_cases (proposedPosition (expireBuffs p now) dt diagScale).2
          20 (MAP_HEIGHT - 20) with hy | hy | hy <;>
        rw [hx, hy]
      · exact hcol
      all_goals exact border_no_collide mapKey _ _ (by simp)

theorem claim_C7_witness :
    0 < basePlayer.hp ∧ basePlayer.disconnected = false ∧
      ((¬ isPlayerColliding "forest"
          (proposedPosition (expireBuffs basePlayer 0) (1 / 30) 0).1
          (proposedPosition (expireBuffs basePlayer 0) (1 / 30) 0).2 →
        20 ≤ (movePlayerStep "forest" basePlayer (1 / 30) 0 0).x ∧
          (movePlayerStep "forest" basePlayer (1 / 30) 0 0).x ≤ MAP_WIDTH - 20 ∧
          20 ≤ (movePlayerStep "forest" basePlayer (1 / 30) 0 0).y ∧
          (movePlayerStep "forest" basePlayer (1 / 30) 0 0).y ≤ MAP_HEIGHT - 20) ∧
      (¬ isPlayerColliding "forest" basePlayer.x basePlayer.y →
        ¬ isPlayerColliding "forest"
            (movePlayerStep "forest" basePlayer (1 / 30) 0 0).x
            (movePlayerStep "forest" basePlayer (1 / 30) 0 0).y)) :=
  ⟨by norm_num [basePlayer], rfl,
   (claim_C7 "forest" basePlayer (1 / 30) 0 0 (by norm_num [basePlayer]) rfl).2⟩

def c7player : GamePlayer :=
  { basePlayer with
    x := 23
    y := 1000
    input := { w := false, a := true, s := false, d := false, angle := 0,
               charging := false, seq := 0 } }

theorem c7_no_collision : ¬ isPlayerColliding "forest" (3753 / 200) 1000 := by
  show ¬ ∃ o ∈ forestObjects, playerCollidesWith (3753 / 200) 1000 o
  rintro ⟨o, ho, hc⟩
  fin_cases ho <;>
    simp only [playerCollidesWith, SOLID_OBSTACLE_TYPES, ELLIPSE_OBSTACLE_TYPES,
      jsOrQ, tr, pond, skel, List.mem_cons, List.not_mem_nil, String.reduceEq,
      or_false, false_or, or_self, if_true, if_false, and_true, true_and,
      and_false, false_and, Option.getD_some, Option.getD_none, ite_true,
      ite_false, not_false_eq_true, reduceIte] at hc <;>
    norm_num at hc

/-- C7 counterexample: in the forest map a living, connected player at
`(23, 1000)` holding only the A key (step `127.05/30 = 4.235`) proposes the
collision-free position `(18.765, 1000)`, which is clamped to exactly
`x = 20` — on the boundary, not strictly inside `(20, MAP_WIDTH−20)`,
refuting the claimed open-interval invariant. -/
theorem claim_C7_counterexample :
    (movePlayerStep "forest" c7player (1 / 30) 0 0).x = 20 ∧
      ¬ (20 < (movePlayerStep "forest" c7player (1 / 30) 0 0).x) := by
  have hprop : proposedPosition (expireBuffs c7player 0) (1 / 30) 0 =
      (3753 / 200, 1000) := by
    norm_num [proposedPosition, expireBuffs, c7player, basePlayer, BASE_SPEED_PER_SEC]
  have hx : (movePlayerStep "forest" c7player (1 / 30) 0 0).x = 20 := by
    unfold movePlayerStep
    rw [if_neg (by norm_num [c7player, basePlayer])]
    rw [if_neg (by rw [show (expireBuffs c7player 0).disconnected = false from rfl]; simp)]
    dsimp only
    unfold clampedTarget
    rw [hprop]
    dsimp only
    rw [if_neg c7_no_collision]
    norm_num [MAP_WIDTH, min_def, max_def]
  exact ⟨hx, by rw [hx]; exact lt_irrefl _⟩

/-! ## Fire-projectile validation pipeline (server.js `fireProjectile` handler) -/

def MIN_SHOT_INTERVAL_MS : ℕ := 140

def BASE_CHARGE_REQUIRED_MS : ℕ := 1000

def FAST_CHARGE_REQUIRED_MS : ℕ := 850

def CHARGE_VALIDATION_GRACE_MS : ℕ := 90

def MAX_ACTIVE_PROJECTILES_PER_PLAYER : ℕ := 8

def MAX_INPUT_STALE_MS : ℕ := 4000

/-- `KILLSTREAK_TIERS.FAST_CHARGE = 7`. -/
def KILLSTREAK_FAST_CHARGE : ℕ := 7

def SHOT_ANGLE_WARN_DELTA : ℚ := 18 / 10

def SHOT_ANGLE_HARD_DELTA : ℚ := 275 / 100

/-- `angleDeltaAbs(a, b)` from server.js. -/
def angleDeltaAbs (a b : ℚ) : ℚ :=
  let na := normalizeAngle a
  let nb := normalizeAngle b
  let d := |na - nb|
  if mathPi < d then twoPi - d else d

/-- Number of projectiles in the room owned by the given player
(`room.projectiles.filter(p => p.ownerId === player.id).length`). -/
def countOwn (l : List Projectile) (pid : String) : ℕ :=
  (l.filter (fun pr => pr.ownerId = pid)).length

/-- Outcome of a `fireProjectile` event. -/
inductive FireOutcome where
  | ignored (why : String)
  | strike (reason : String)
  | fired
deriving DecidableEq, Repr

/-- `if (player.invisible) { player.invisible = false; player.invisExpire = 0; }`
— firing breaks invisibility. -/
def clearInvisible (p : GamePlayer) : GamePlayer :=
  if p.invisible then { p with invisible := false, invisExpire := 0 } else p

theorem clearInvisible_id (p : GamePlayer) : (clearInvisible p).id = p.id := by
  unfold clearInvisible
  split <;> rfl

/-- The `fireProjectile` handler.  `dataValid`/`dataAngle` model the payload
(`dataAngle = none` when the angle field is not a number).  The three booleans
`originDistOk`, `originBlocked`, `pathBlocked` are the outcomes of the
muzzle-origin distance, origin-blocked and path-occlusion geometric checks,
which involve floating-point `cos`/`sin`/`sqrt` and map sampling; they are
passed as oracles and the verified claims hold for every value of them.
`ignored` is a silent early return (no strike); `strike reason` is a
rejection that calls `registerSuspicion(reason)`.  The non-fatal
`fire_angle_mismatch` warning strike (`delta > 1.8`, shot still allowed) is
not tracked in the outcome. -/
def fireStep (roomState : String) (projectiles : List Projectile)
    (p : GamePlayer) (mode : ACMode) (dataValid : Bool) (dataAngle : Option ℚ)
    (originDistOk originBlocked pathBlocked : Bool) (now : ℕ) :
    FireOutcome × GamePlayer × List Projectile :=
  if roomState ≠ "playing" then (.ignored "not_playing", p, projectiles)
  else if p.hp ≤ 0 then (.ignored "dead", p, projectiles)
  else if isEnforcementBlocked mode p.acState "fireProjectile" now then
    (.ignored "enforcement", p, projectiles)
  else if MAX_INPUT_STALE_MS < now - p.lastUpdate then
    (.strike "shot_with_stale_input", p, projectiles)
  else if dataValid = false then (.strike "invalid_fire_payload", p, projectiles)
  else if p.lastShotAt ≠ 0 ∧ now - p.lastShotAt < MIN_SHOT_INTERVAL_MS then
    (.strike "fire_rate_violation", p, projectiles)
  else
    let chargeRequiredMs := if KILLSTREAK_FAST_CHARGE ≤ p.killstreak
                            then FAST_CHARGE_REQUIRED_MS
                            else BASE_CHARGE_REQUIRED_MS
    let chargeHeldMs := if p.chargeStartedAt ≠ 0 ∧ p.input.charging = true
                        then now - p.chargeStartedAt else 0
    if chargeHeldMs < chargeRequiredMs - CHARGE_VALIDATION_GRACE_MS then
      (.strike "fire_charge_violation", p, projectiles)
    else if MAX_ACTIVE_PROJECTILES_PER_PLAYER ≤ countOwn projectiles p.id then
      (.strike "active_projectile_cap_exceeded", p, projectiles)
    else
      let p1 := clearInvisible p
      let angle := normalizeAngle (dataAngle.getD p1.angle)
      let delta := angleDeltaAbs angle p1.input.angle
      if SHOT_ANGLE_HARD_DELTA < delta then
        (.strike "fire_angle_hard_reject", p1, projectiles)
      else if originDistOk = false then
        (.strike "fire_origin_distance_mismatch", p1, projectiles)
      else if originBlocked then (.strike "fire_origin_blocked", p1, projectiles)
      else if pathBlocked then (.strike "fire_path_blocked", p1, projectiles)
      else
        (.fired,
         { p1 with lastShotAt := now, chargeStartedAt := 0 },
         projectiles ++ [{ ownerId := p.id }])

set_option maxHeartbeats 1600000 in
/-- Everything a successful fire implies: the rate gate was satisfied, the
shooter's last-shot timestamp becomes `now`, fewer than 8 own projectiles
were active, and exactly one projectile (owned by the shooter) is appended. -/
theorem fireStep_fired_facts (rs : String) (projs : List Projectile)
    (p : GamePlayer) (mode : ACMode) (dv : Bool) (da : Option ℚ)
    (o1 ob pb : Bool) (now : ℕ) (p' : GamePlayer) (projs' : List Projectile)
    (h : fireStep rs projs p mode dv da o1 ob pb now = (.fired, p', projs')) :
    (p.lastShotAt = 0 ∨ p.lastShotAt + MIN_SHOT_INTERVAL_MS ≤ now) ∧
      p'.lastShotAt = now ∧
      countOwn projs p.id < MAX_ACTIVE_PROJECTILES_PER_PLAYER ∧
      projs' = projs ++ [{ ownerId := p.id }] := by
  unfold fireStep at h
  dsimp only at h
  by_cases c1 : rs ≠ "playing"
  · rw [if_pos c1] at h
    exact absurd (congrArg Prod.fst h) (by simp)
  rw [if_neg c1] at h
  by_cases c2 : p.hp ≤ 0
  · rw [if_pos c2] at h
    exact absurd (congrArg Prod.fst h) (by simp)
  rw [if_neg c2] at h
  rw [isEnforcementBlocked_false] at h
  rw [if_neg (show ¬((false : Bool) = true) from by simp)] at h
  by_cases c4 : MAX_INPUT_STALE_MS < now - p.lastUpdate
  · rw [if_pos c4] at h
    exact absurd (congrArg Prod.fst h) (by simp)
  rw [if_neg c4] at h
  by_cases c5 : dv = false
  · rw [if_pos c5] at h
    exact absurd (congrArg Prod.fst h) (by simp)
  rw [if_neg c5] at h
  by_cases c6 : p.lastShotAt ≠ 0 ∧ now - p.lastShotAt < MIN_SHOT_INTERVAL_MS
  · rw [if_pos c6] at h
    exact absurd (congrArg Prod.fst h) (by simp)
  rw [if_neg c6] at h
  by_cases c7 : (if p.chargeStartedAt ≠ 0 ∧ p.input.charging = true
      then now - p.chargeStartedAt else 0) <
      (if KILLSTREAK_FAST_CHARGE ≤ p.killstreak then FAST_CHARGE_REQUIRED_MS
       else BASE_CHARGE_REQUIRED_MS) - CHARGE_VALIDATION_GRACE_MS
  · rw [if_pos c7] at h
    exact absurd (congrArg Prod.fst h) (by simp)
  rw [if_neg c7] at h
  by_cases c8 : MAX_ACTIVE_PROJECTILES_PER_PLAYER ≤ countOwn projs p.id
  · rw [if_pos c8] at h
    exact absurd (congrArg Prod.fst h) (by simp)
  rw [if_neg c8] at h
  by_cases c9 : SHOT_ANGLE_HARD_DELTA <
      angleDeltaAbs (normalizeAngle (da.getD (clearInvisible p).angle))
        (clearInvisible p).input.angle
  · rw [if_pos c9] at h
    exact absurd (congrArg Prod.fst h) (by simp)
  rw [if_neg c9] at h
  by_cases c10 : o1 = false
  · rw [if_pos c10] at h
    exact absurd (congrArg Prod.fst h) (by simp)
  rw [if_neg c10] at h
  by_cases c11 : ob = true
  · rw [if_pos c11] at h
    exact absurd (congrArg Prod.fst h) (by simp)
  rw [if_neg c11] at h
  by_cases c12 : pb = true
  · rw [if_pos c12] at h
    exact absurd (congrArg Prod.fst h) (by simp)
  rw [if_neg c12] at h
  simp only [Prod.mk.injEq] at h
  obtain ⟨-, hp', hprojs⟩ := h
  exact ⟨by simp only [MIN_SHOT_INTERVAL_MS] at c6 ⊢; omega,
         by rw [← hp'], by omega, hprojs.symm⟩

theorem countOwn_append_own (l : List Projectile) (pid : String) :
    countOwn (l ++ [{ ownerId := pid }]) pid = countOwn l pid + 1 := by
  simp [countOwn]

set_option maxHeartbeats 1600000 in
/-- C5: at the charge gate (reached when the freshness, payload and
fire-rate gates pass), the shot is rejected with a `fire_charge_violation`
strike exactly when the charge was held for less than the required duration
minus the 90 ms grace, where the required duration is 1000 ms, or 850 ms at
killstreak ≥ 7; the held time is `now − chargeStartedAt` while charging and
0 otherwise (so a charge held exactly 910 ms passes the gate and one held
909 ms is rejected, see the witness). -/
theorem claim_C5 (projs : List Projectile) (p : GamePlayer) (mode : ACMode)
    (da : Option ℚ) (o1 ob pb : Bool) (now : ℕ)
    (hhp : 0 < p.hp)
    (hstale : now - p.lastUpdate ≤ MAX_INPUT_STALE_MS)
    (hrate : p.lastShotAt = 0 ∨ MIN_SHOT_INTERVAL_MS ≤ now - p.lastShotAt) :
    (fireStep "playing" projs p mode true da o1 ob pb now).1 =
        .strike "fire_charge_violation" ↔
      (if p.chargeStartedAt ≠ 0 ∧ p.input.charging = true
       then now - p.chargeStartedAt else 0) <
        (if KILLSTREAK_FAST_CHARGE ≤ p.killstreak
         then FAST_CHARGE_REQUIRED_MS
         else BASE_CHARGE_REQUIRED_MS) - CHARGE_VALIDATION_GRACE_MS := by
  unfold fireStep
  dsimp only
  rw [isEnforcementBlocked_false]
  rw [if_neg (show ¬(("playing" : String) ≠ "playing") from by simp),
    if_neg (not_le.mpr hhp), if_neg (show ¬((false : Bool) = true) from by simp),
    if_neg (not_lt.mpr hstale), if_neg (show ¬((true : Bool) = false) from by simp),
    if_neg (show ¬(p.lastShotAt ≠ 0 ∧ now - p.lastShotAt < MIN_SHOT_INTERVAL_MS)
      from by omega)]
  by_cases hc : (if p.chargeStartedAt ≠ 0 ∧ p.input.charging = true
      then now - p.chargeStartedAt else 0) <
      (if KILLSTREAK_FAST_CHARGE ≤ p.killstreak then FAST_CHARGE_REQUIRED_MS
       else BASE_CHARGE_REQUIRED_MS) - CHARGE_VALIDATION_GRACE_MS
  · rw [if_pos hc]
    exact iff_of_true rfl hc
  · rw [if_neg hc]
    refine iff_of_false ?_ hc
    split_ifs <;> simp

def c5player : GamePlayer :=
  { basePlayer with
    chargeStartedAt := 1000
    lastUpdate := 1900
    input := { w := false, a := false, s := false, d := false, angle := 0,
               charging := true, seq := 0 } }

theorem normalizeAngle_zero : normalizeAngle 0 = 0 := by
  have h1 : reduceDown 0 = 0 := by
    rw [reduceDown, if_neg (by norm_num [mathPi])]
  have h2 : reduceUp 0 = 0 := by
    rw [reduceUp, if_neg (by norm_num [mathPi])]
  unfold normalizeAngle
  rw [if_neg (by norm_num [MAX_ABS_ANGLE, mathPi])]
  show reduceUp (reduceDown 0) = 0
  rw [h1, h2]

set_option maxHeartbeats 1600000 in
theorem fire_910_accepted :
    (fireStep "playing" [] c5player ACMode.observe true (some 0) true false false
        1910).1 = FireOutcome.fired := by
  unfold fireStep
  rw [isEnforcementBlocked_false]
  norm_num [c5player, basePlayer, clearInvisible, angleDeltaAbs,
    normalizeAngle_zero, countOwn, Option.getD, MAX_INPUT_STALE_MS,
    MIN_SHOT_INTERVAL_MS, KILLSTREAK_FAST_CHARGE, BASE_CHARGE_REQUIRED_MS,
    CHARGE_VALIDATION_GRACE_MS, MAX_ACTIVE_PROJECTILES_PER_PLAYER,
    SHOT_ANGLE_HARD_DELTA, mathPi]

theorem claim_C5_witness :
    (0 < c5player.hp ∧ (1909 : ℕ) - c5player.lastUpdate ≤ MAX_INPUT_STALE_MS ∧
      c5player.lastShotAt = 0 ∧
      (fireStep "playing" [] c5player ACMode.observe true (some 0) true false false
          1909).1 = .strike "fire_charge_violation") ∧
      (fireStep "playing" [] c5player ACMode.observe true (some 0) true false false
          1910).1 = FireOutcome.fired := by
  refine ⟨⟨by norm_num [c5player, basePlayer], by decide, rfl, ?_⟩, fire_910_accepted⟩
  exact (claim_C5 [] c5player ACMode.observe (some 0) true false false 1909
      (by norm_num [c5player, basePlayer]) (by decide) (Or.inl rfl)).mpr (by decide)

/-- C8: two accepted `fireProjectile` events are never less than 140 ms
apart (the second accepted fire from a state whose last-shot timestamp was
set by the first, at a positive time, happens at least `MIN_SHOT_INTERVAL_MS`
later), and an accepted fire always finds fewer than 8 own projectiles
active and leaves at most 8 — a ninth fire attempt while 8 are active is
rejected. -/
theorem claim_C8 (rs1 : String) (projs1 : List Projectile) (p1 : GamePlayer)
    (mode1 : ACMode) (dv1 : Bool) (da1 : Option ℚ) (oa1 ob1 oc1 : Bool)
    (now1 : ℕ) (q1 : GamePlayer) (qrojs1 : List Projectile)
    (rs2 : String) (projs2 : List Projectile) (p2 : GamePlayer)
    (mode2 : ACMode) (dv2 : Bool) (da2 : Option ℚ) (oa2 ob2 oc2 : Bool)
    (now2 : ℕ) (q2 : GamePlayer) (qrojs2 : List Projectile)
    (h1 : fireStep rs1 projs1 p1 mode1 dv1 da1 oa1 ob1 oc1 now1 =
      (.fired, q1, qrojs1))
    (hlink : p2.lastShotAt = q1.lastShotAt)
    (h2 : fireStep rs2 projs2 p2 mode2 dv2 da2 oa2 ob2 oc2 now2 =
      (.fired, q2, qrojs2))
    (hpos : 0 < now1) :
    now1 + MIN_SHOT_INTERVAL_MS ≤ now2 ∧
      countOwn projs1 p1.id < MAX_ACTIVE_PROJECTILES_PER_PLAYER ∧
      countOwn qrojs1 p1.id ≤ MAX_ACTIVE_PROJECTILES_PER_PLAYER ∧
      countOwn qrojs2 p2.id ≤ MAX_ACTIVE_PROJECTILES_PER_PLAYER := by
  obtain ⟨hrate1, hset1, hcap1, happ1⟩ :=
    fireStep_fired_facts rs1 projs1 p1 mode1 dv1 da1 oa1 ob1 oc1 now1 q1 qrojs1 h1
  obtain ⟨hrate2, hset2, hcap2, happ2⟩ :=
    fireStep_fired_facts rs2 projs2 p2 mode2 dv2 da2 oa2 ob2 oc2 now2 q2 qrojs2 h2
  have hl : p2.lastShotAt = now1 := by rw [hlink, hset1]
  constructor
  · rcases hrate2 with h0 | hle
    · rw [hl] at h0
      omega
    · rw [hl] at hle
      exact hle
  · refine ⟨hcap1, ?_, ?_⟩
    · rw [happ1, countOwn_append_own]
      omega
    · rw [happ2, countOwn_append_own]
      omega

def c8player2 : GamePlayer :=
  { c5player with
    lastShotAt := 1910
    chargeStartedAt := 4000
    lastUpdate := 4800 }

set_option maxHeartbeats 1600000 in
theorem fire_second_accepted :
    (fireStep "playing" [{ ownerId := "p1" }] c8player2 ACMode.observe true
        (some 0) true false false 4910).1 = FireOutcome.fired := by
  unfold fireStep
  rw [isEnforcementBlocked_false]
  norm_num [c8player2, c5player, basePlayer, clearInvisible, angleDeltaAbs,
    normalizeAngle_zero, countOwn, Option.getD, MAX_INPUT_STALE_MS,
    MIN_SHOT_INTERVAL_MS, KILLSTREAK_FAST_CHARGE, BASE_CHARGE_REQUIRED_MS,
    CHARGE_VALIDATION_GRACE_MS, MAX_ACTIVE_PROJECTILES_PER_PLAYER,
    SHOT_ANGLE_HARD_DELTA, mathPi]

set_option maxHeartbeats 1600000 in
theorem claim_C8_witness :
    (fireStep "playing" [] c5player ACMode.observe true (some 0) true false false
        1910 =
      (FireOutcome.fired,
       (fireStep "playing" [] c5player ACMode.observe true (some 0) true false
          false 1910).2.1,
       (fireStep "playing" [] c5player ACMode.observe true (some 0) true false
          false 1910).2.2)) ∧
      1910 + MIN_SHOT_INTERVAL_MS ≤ 4910 ∧
      countOwn [] c5player.id < MAX_ACTIVE_PROJECTILES_PER_PLAYER := by
  have hq1 : fireStep "playing" [] c5player ACMode.observe true (some 0) true
      false false 1910 =
      (.fired,
       (fireStep "playing" [] c5player ACMode.observe true (some 0) true false
          false 1910).2.1,
       (fireStep "playing" [] c5player ACMode.observe true (some 0) true false
          false 1910).2.2) := by
    rw [← fire_910_accepted]
  have hq2 : fireStep "playing" [{ ownerId := "p1" }] c8player2 ACMode.observe
      true (some 0) true false false 4910 =
      (.fired,
       (fireStep "playing" [{ ownerId := "p1" }] c8player2 ACMode.observe true
          (some 0) true false false 4910).2.1,
       (fireStep "playing" [{ ownerId := "p1" }] c8player2 ACMode.observe true
          (some 0) true false false 4910).2.2) := by
    rw [← fire_second_accepted]
  have hlink : c8player2.lastShotAt =
      ((fireStep "playing" [] c5player ACMode.observe true (some 0) true false
          false 1910).2.1).lastShotAt := by
    rw [(fireStep_fired_facts _ _ _ _ _ _ _ _ _ _ _ _ hq1).2.1]
    rfl
  have h := claim_C8 "playing" [] c5player ACMode.observe true (some 0) true
    false false 1910 _ _ "playing" [{ ownerId := "p1" }] c8player2
    ACMode.observe true (some 0) true false false 4910 _ _ hq1 hlink hq2
    (by norm_num)
  exact ⟨hq1, h.1, h.2.1⟩

/-! ## Match end (server.js game-loop timer branch, `clonePlayersForResults`,
`storePendingMatchResults`, `finalizeRoomAdRewards`, `resetRoomForLobby`) -/

/-- `const GAME_DURATION = 110` (seconds). -/
def GAME_DURATION : ℕ := 110

def MATCH_RESULT_TTL_MS : ℕ := 30 * 60 * 1000

structure PendingResult where
  roomCode : String
  players : List (String × ResultPlayer)
  endedAt : ℕ
  exp : ℕ
deriving DecidableEq, Repr

def cloneResultPlayer (p : GamePlayer) : ResultPlayer :=
  { id := p.id, persistentId := p.persistentId, name := p.name, x := p.x,
    y := p.y, angle := p.angle, hp := p.hp, maxHp := p.maxHp, kills := p.kills,
    deaths := p.deaths, killstreak := p.killstreak,
    disconnected := p.disconnected }

/-- `clonePlayersForResults(room)`. -/
def clonePlayersForResults (room : Room) : List (String × ResultPlayer) :=
  room.players.map (fun e => (e.1, cloneResultPlayer e.2))

/-- `storePendingMatchResults(roomCode, playersSnapshot)`: for every snapshot
entry with a persistent id, store the pending result under that id. -/
def storePendingMatchResults (roomCode : String)
    (snapshot : List (String × ResultPlayer))
    (pending : List (String × PendingResult)) (now : ℕ) :
    List (String × PendingResult) :=
  snapshot.foldl (fun acc e =>
    match e.2.persistentId with
    | some pid => setVal acc pid
        { roomCode := roomCode, players := snapshot, endedAt := now,
          exp := now + MATCH_RESULT_TTL_MS }
    | none => acc) pending

/-- The reward-flag part of `finalizeRoomAdRewards`: for every player with a
persistent id whose instant-respawn reward was active at match start, the
pending flag becomes `true` iff no charge was consumed this match. -/
def finalizeRewardFlags (players : List (String × GamePlayer))
    (rewards : List (String × Bool)) : List (String × Bool) :=
  players.foldl (fun acc e =>
    match e.2.persistentId with
    | some pid =>
        if e.2.instantRespawnActiveAtMatchStart
        then setVal acc pid (!e.2.instantRespawnUsedThisMatch)
        else acc
    | none => acc) rewards

/-- `finalizeRoomAdRewards(room)`: update the reward flags, then clear the
per-player instant-respawn bookkeeping (for players with a persistent id). -/
def finalizeRoomAdRewards (room : Room) (rewards : List (String × Bool)) :
    Room × List (String × Bool) :=
  ({ room with players := room.players.map (fun e =>
      if e.2.persistentId.isSome then
        (e.1, { e.2 with instantRespawnActiveAtMatchStart := false,
                         instantRespawnUsedThisMatch := false,
                         instantRespawnCharges := 0 })
      else e) },
   finalizeRewardFlags room.players rewards)

/-- `resetRoomForLobby(roomCode)` restricted to the modelled fields (the
state-sync, kill-chain and anti-cheat room aggregates are not modelled). -/
def resetRoomForLobby (room : Room) : Room :=
  { room with
    state := "lobby"
    gameStartTime := 0
    projectiles := []
    nextSpawnIndex := 0
    players := room.players.map (fun e =>
      (e.1, { e.2 with
        ready := decide (e.1 = room.leader)
        charging := false
        chargeStartedAt := 0
        lastShotAt := 0
        inputSeq := 0
        acState := { windowStart := 0, windowStrikes := 0, warned := false,
                     level := "none", blockUntil := 0, lastBlockLogAt := 0 }
        input := { w := false, a := false, s := false, d := false,
                   angle := e.2.angle, charging := false, seq := 0 }
        inputIntegrity := { lastMask := 0, lastAt := 0, togglePoints := 0,
                            windowStart := 0 }
        instantRespawnCharges := 0
        instantRespawnUsedThisMatch := false
        instantRespawnActiveAtMatchStart := false })) }

inductive GameEvent where
  | gameEnd (roomCode : String) (endedAt : ℕ)
  | lobbyUpdate (roomCode : String)
deriving DecidableEq, Repr

/-- The game-timer branch of the per-tick loop: when a playing room's match
has run for `GAME_DURATION` seconds, snapshot the stats, store pending
results, archive them in the room with the ended-at timestamp, finalize
reward flags, reset the room to lobby and emit `gameEnd` plus a lobby
update; otherwise nothing happens.  (`storePendingMatchResults` reads the
clock in the same tick, so its timestamp equals `now`.) -/
def gameEndCheck (room : Room) (pending : List (String × PendingResult))
    (rewards : List (String × Bool)) (now : ℕ) :
    Room × List (String × PendingResult) × List (String × Bool) ×
      List GameEvent :=
  if room.state = "playing" ∧ GAME_DURATION * 1000 ≤ now - room.gameStartTime
  then
    let resultPlayers := clonePlayersForResults room
    let pending1 := storePendingMatchResults room.code resultPlayers pending now
    let room1 := { room with lastMatchResults := some resultPlayers,
                             lastMatchEndedAt := now }
    let fr := finalizeRoomAdRewards room1 rewards
    (resetRoomForLobby fr.1, pending1, fr.2,
     [.gameEnd room.code now, .lobbyUpdate room.code])
  else (room, pending, rewards, [])

theorem store_persists (snapshot : List (String × ResultPlayer))
    (roomCode : String) (acc : List (String × PendingResult)) (pid : String)
    (now : ℕ) (v : PendingResult)
    (hv : v = { roomCode := roomCode, players := snapshot, endedAt := now,
                exp := now + MATCH_RESULT_TTL_MS })
    (l : List (String × ResultPlayer)) (hacc : findVal acc pid = some v) :
    findVal (l.foldl (fun acc e =>
      match e.2.persistentId with
      | some q => setVal acc q
          { roomCode := roomCode, players := snapshot, endedAt := now,
            exp := now + MATCH_RESULT_TTL_MS }
      | none => acc) acc) pid = some v := by
  induction l generalizing acc with
  | nil => exact hacc
  | cons e rest ih =>
    simp only [List.foldl_cons]
    apply ih
    cases he : e.2.persistentId with
    | none => exact hacc
    | some q =>
      by_cases hq : pid = q
      · rw [← hq, findVal_setVal_self, hv]
      · rw [findVal_setVal_ne _ _ _ _ hq]
        exact hacc

theorem store_mem (snapshot : List (String × ResultPlayer))
    (roomCode : String) (pending : List (String × PendingResult))
    (pid : String) (now : ℕ) (l : List (String × ResultPlayer))
    (k : String) (p : ResultPlayer) (hmem : (k, p) ∈ l)
    (hpid : p.persistentId = some pid) :
    findVal (l.foldl (fun acc e =>
      match e.2.persistentId with
      | some q => setVal acc q
          { roomCode := roomCode, players := snapshot, endedAt := now,
            exp := now + MATCH_RESULT_TTL_MS }
      | none => acc) pending) pid =
      some { roomCode := roomCode, players := snapshot, endedAt := now,
             exp := now + MATCH_RESULT_TTL_MS } := by
  induction l generalizing pending with
  | nil => simp at hmem
  | cons e rest ih =>
    rcases List.mem_cons.mp hmem with heq | hrest
    · simp only [List.foldl_cons, ← heq, hpid]
      exact store_persists snapshot roomCode _ pid now _ rfl rest
        (findVal_setVal_self _ _ _)
    · simp only [List.foldl_cons]
      exact ih _ hrest

theorem reward_preserve (l : List (String × GamePlayer))
    (acc : List (String × Bool)) (pid : String)
    (hnone : ∀ e ∈ l, ¬ e.2.persistentId = some pid) :
    findVal (l.foldl (fun acc e =>
      match e.2.persistentId with
      | some q => if e.2.instantRespawnActiveAtMatchStart
                  then setVal acc q (!e.2.instantRespawnUsedThisMatch)
                  else acc
      | none => acc) acc) pid = findVal acc pid := by
  induction l generalizing acc with
  | nil => rfl
  | cons e rest ih =>
    simp only [List.foldl_cons]
    rw [ih _ (fun x hx => hnone x (List.mem_cons_of_mem e hx))]
    cases he : e.2.persistentId with
    | none => rfl
    | some q =>
      have hq : ¬ pid = q := fun hc =>
        hnone e (List.mem_cons_self e rest) (by rw [he, hc])
      show findVal (if e.2.instantRespawnActiveAtMatchStart = true
          then setVal acc q (!e.2.instantRespawnUsedThisMatch) else acc) pid =
        findVal acc pid
      by_cases ha : e.2.instantRespawnActiveAtMatchStart = true
      · rw [if_pos ha]
        exact findVal_setVal_ne _ _ _ _ hq
      · rw [if_neg ha]

theorem reward_mem (l : List (String × GamePlayer))
    (rewards : List (String × Bool)) (pid : String) (k : String)
    (p : GamePlayer) (hmem : (k, p) ∈ l) (hpid : p.persistentId = some pid)
    (hact : p.instantRespawnActiveAtMatchStart = true)
    (huniq : ∀ e ∈ l, e.2.persistentId = some pid → e = (k, p)) :
    findVal (l.foldl (fun acc e =>
      match e.2.persistentId with
      | some q => if e.2.instantRespawnActiveAtMatchStart
                  then setVal acc q (!e.2.instantRespawnUsedThisMatch)
                  else acc
      | none => acc) rewards) pid =
      some (!p.instantRespawnUsedThisMatch) := by
  induction l generalizing rewards with
  | nil => simp at hmem
  | cons e rest ih =>
    simp only [List.foldl_cons]
    by_cases hkp : (k, p) ∈ rest
    · exact ih _ hkp (fun x hx h => huniq x (List.mem_cons_of_mem e hx) h)
    · have heq : e = (k, p) := by
        rcases List.mem_cons.mp hmem with h | h
        · exact h.symm
        · exact absurd h hkp
      have hrest : ∀ x ∈ rest, ¬ x.2.persistentId = some pid := by
        intro x hx hc
        exact hkp (huniq x (List.mem_cons_of_mem e hx) hc ▸ hx)
      rw [reward_preserve rest _ pid hrest, heq]
      dsimp only
      rw [hpid]
      show findVal (if p.instantRespawnActiveAtMatchStart = true
          then setVal rewards pid (!p.instantRespawnUsedThisMatch) else rewards)
          pid = some (!p.instantRespawnUsedThisMatch)
      rw [if_pos hact]
      exact findVal_setVal_self _ _ _

set_option maxHeartbeats 800000 in
/-- C6: on a tick at which `now − match-start ≥ 110 s` for a playing room,
the server archives the final-stat snapshot in the room with the ended-at
timestamp, resets the room state to lobby, emits a game-end event followed
by a lobby update, stores the snapshot as a pending result (with a
30-minute expiry) under the persistent id of **every** participant that has
one, and finalizes the reward flag of every reward-active participant to
"pending iff unused" (for a participant whose persistent id is not shared);
the resulting room is no longer playing, so the branch cannot fire again
(the match ends on the first such tick). -/
theorem claim_C6 (room : Room) (pending : List (String × PendingResult))
    (rewards : List (String × Bool)) (now : ℕ)
    (hstate : room.state = "playing")
    (htime : GAME_DURATION * 1000 ≤ now - room.gameStartTime) :
    (gameEndCheck room pending rewards now).1.state = "lobby" ∧
      (gameEndCheck room pending rewards now).1.lastMatchResults =
        some (clonePlayersForResults room) ∧
      (gameEndCheck room pending rewards now).1.lastMatchEndedAt = now ∧
      (∀ k p pid, (k, p) ∈ room.players → p.persistentId = some pid →
        findVal (gameEndCheck room pending rewards now).2.1 pid =
          some { roomCode := room.code,
                 players := clonePlayersForResults room,
                 endedAt := now, exp := now + MATCH_RESULT_TTL_MS }) ∧
      (∀ k p pid, (k, p) ∈ room.players → p.persistentId = some pid →
        p.instantRespawnActiveAtMatchStart = true →
        (∀ e ∈ room.players, e.2.persistentId = some pid → e = (k, p)) →
        findVal (gameEndCheck room pending rewards now).2.2.1 pid =
          some (!p.instantRespawnUsedThisMatch)) ∧
      (gameEndCheck room pending rewards now).2.2.2 =
        [.gameEnd room.code now, .lobbyUpdate room.code] ∧
      ∀ pending2 rewards2 now2,
        gameEndCheck (gameEndCheck room pending rewards now).1 pending2
            rewards2 now2 =
          ((gameEndCheck room pending rewards now).1, pending2, rewards2, []) := by
  have hcond : room.state = "playing" ∧
      GAME_DURATION * 1000 ≤ now - room.gameStartTime := ⟨hstate, htime⟩
  unfold gameEndCheck
  rw [if_pos hcond]
  refine ⟨rfl, rfl, rfl, ?_, ?_, rfl, ?_⟩
  · intro k p pid hmem hpid
    exact store_mem (clonePlayersForResults room) room.code pending pid now
      (clonePlayersForResults room) k (cloneResultPlayer p)
      (by exact List.mem_map_of_mem (fun e => (e.1, cloneResultPlayer e.2)) hmem)
      hpid
  · intro k p pid hmem hpid hact huniq
    exact reward_mem room.players rewards pid k p hmem hpid hact huniq
  · intro pending2 rewards2 now2
    rw [if_neg]
    intro hcon
    exact absurd hcon.1 (by simp [resetRoomForLobby])

def c6player : GamePlayer :=
  { basePlayer with instantRespawnActiveAtMatchStart := true }

def c6room : Room :=
  { code := "54321", state := "playing", leader := "p1", map := "forest",
    gameStartTime := 5000, nextSpawnIndex := 0,
    players := [("p1", c6player)], projectiles := [],
    lastMatchResults := none, lastMatchEndedAt := 0 }

theorem claim_C6_witness :
    (c6room.state = "playing" ∧
      GAME_DURATION * 1000 ≤ 120000 - c6room.gameStartTime) ∧
      (gameEndCheck c6room [] [] 120000).1.state = "lobby" ∧
      findVal (gameEndCheck c6room [] [] 120000).2.1 "pid1" =
        some { roomCode := "54321",
               players := clonePlayersForResults c6room,
               endedAt := 120000, exp := 120000 + MATCH_RESULT_TTL_MS } ∧
      findVal (gameEndCheck c6room [] [] 120000).2.2.1 "pid1" = some true ∧
      (gameEndCheck c6room [] [] 120000).2.2.2 =
        [.gameEnd "54321" 120000, .lobbyUpdate "54321"] := by
  have h := claim_C6 c6room [] [] 120000 rfl (by decide)
  refine ⟨⟨rfl, by decide⟩, h.1, ?_, ?_, h.2.2.2.2.2.1⟩
  · exact h.2.2.2.1 "p1" c6player "pid1" (List.mem_cons_self _ _) rfl
  · exact h.2.2.2.2.1 "p1" c6player "pid1" (List.mem_cons_self _ _) rfl rfl
      (by intro e he _; simpa using List.mem_singleton.mp he)

/-! ## State broadcaster diffing (server.js `stateValuesEqual`,
`diffStateMaps`) and reconstruction -/

/-- A packet field value (JS primitive; a missing field reads as `undef`). -/
inductive Value where
  | num (q : ℚ)
  | bool (b : Bool)
  | str (s : String)
  | undef
deriving DecidableEq, Repr

/-- An entity packet: field name → value. -/
abbrev Entity := List (String × Value)

/-- An entity-state map: entity id → packet. -/
abbrev StateMap := List (String × Entity)

/-- JS field read `entity[field]` (`undefined` when absent). -/
def getField (e : Entity) (f : String) : Value :=
  (findVal e f).getD Value.undef

/-- `const STATE_FLOAT_EPSILON = { x: 0.01, y: 0.01, vx: 0.01, vy: 0.01,
angle: 0.001 }`. -/
def STATE_FLOAT_EPSILON : List (String × ℚ) :=
  [("x", 1 / 100), ("y", 1 / 100), ("vx", 1 / 100), ("vy", 1 / 100),
   ("angle", 1 / 1000)]

/-- `stateValuesEqual(field, a, b)`: strict equality, or — for two (finite)
numbers on a field with an epsilon — closeness within the epsilon. -/
def stateValuesEqual (field : String) (a b : Value) : Bool :=
  if a = b then true
  else
    match a, b, findVal STATE_FLOAT_EPSILON field with
    | .num qa, .num qb, some eps => decide (|qa - qb| ≤ eps)
    | _, _, _ => false

/-- The patch body built by `diffStateMaps` for an entity present in both
maps: the tracked fields whose values are not `stateValuesEqual`. -/
def changedFields (fields : List String) (ne pe : Entity) :
    List (String × Value) :=
  match fields with
  | [] => []
  | f :: rest =>
      if stateValuesEqual f (getField ne f) (getField pe f)
      then changedFields rest ne pe
      else (f, getField ne f) :: changedFields rest ne pe

/-- An upsert entry: the full entity (id missing from `previous`) or a patch
(`{ id, ...changed fields }`). -/
inductive Upsert where
  | full (id : String) (entity : Entity)
  | patch (id : String) (fields : List (String × Value))
deriving DecidableEq, Repr

def Upsert.uid : Upsert → String
  | .full i _ => i
  | .patch i _ => i

/-- The upsert list of `diffStateMaps`, built over the current map's entries
in order: a missing previous entity yields a full upsert, a present one a
patch when at least one tracked field changed. -/
def diffUpserts : StateMap → StateMap → List String → List Upsert
  | [], _, _ => []
  | (i, e) :: rest, prev, fields =>
      match findVal prev i with
      | none => .full i e :: diffUpserts rest prev fields
      | some pe =>
          let ch := changedFields fields e pe
          if ch.isEmpty then diffUpserts rest prev fields
          else .patch i ch :: diffUpserts rest prev fields

/-- The removed-id list of `diffStateMaps`: previous ids absent from the
current map. -/
def diffRemoved (cur prev : StateMap) : List String :=
  (prev.map Prod.fst).filter (fun i => (findVal cur i).isNone)

structure StateDiff where
  upserts : List Upsert
  removed : List String
deriving DecidableEq, Repr

/-- `diffStateMaps(currentMap, previousMap, fields)`. -/
def diffStateMaps (cur prev : StateMap) (fields : List String) : StateDiff :=
  { upserts := diffUpserts cur prev fields, removed := diffRemoved cur prev }

/-- Applying a patch: the patched fields shadow the previous entity's. -/
def applyPatchEntity (pe : Entity) (changes : List (String × Value)) : Entity :=
  changes ++ pe

/-- Applying one upsert to a map: a full upsert replaces/inserts the entity,
a patch overrides the listed fields of the stored entity. -/
def applyUpsert (m : StateMap) : Upsert → StateMap
  | .full i e => setVal m i e
  | .patch i ch =>
      match findVal m i with
      | some pe => setVal m i (applyPatchEntity pe ch)
      | none => setVal m i (applyPatchEntity [] ch)

def applyUpserts (m : StateMap) : List Upsert → StateMap
  | [] => m
  | u :: rest => applyUpserts (applyUpsert m u) rest

/-- Applying a diff to a map (the claim's reading: replace each upserted
entity's listed fields, then delete each removed id). -/
def applyDiff (m : StateMap) (d : StateDiff) : StateMap :=
  (applyUpserts m d.upserts).filter (fun e => !(decide (e.1 ∈ d.removed)))

/-- All tracked fields of the reconstructed entity agree with the current one
up to `stateValuesEqual`. -/
def entityFieldsMatch (fields : List String) (a b : Entity) : Bool :=
  fields.all (fun f => stateValuesEqual f (getField a f) (getField b f))

def optEntityMatch (fields : List String) :
    Option Entity → Option Entity → Bool
  | none, none => true
  | some a, some b => entityFieldsMatch fields a b
  | _, _ => false

def c3cur : StateMap := [("e", [("x", Value.num (1 / 200))])]

def c3prev : StateMap := [("e", [("x", Value.num 0)])]

/-- C3 counterexample: with tracked field `x` (epsilon 0.01), a current map
moving entity `e` from `x = 0` to `x = 0.005` diffs to an empty patch (the
change is within epsilon), so applying the diff to `previous` reconstructs
`x = 0`, which is **not** exactly equal to the current value `0.005` — the
reconstruction is not exact on every tracked field. -/
theorem claim_C3_counterexample :
    getField ((findVal (applyDiff c3prev (diffStateMaps c3cur c3prev ["x"]))
        "e").getD []) "x" = Value.num 0 ∧
      getField ((findVal c3cur "e").getD []) "x" = Value.num (1 / 200) ∧
      Value.num 0 ≠ Value.num (1 / 200) := by
  have heps : stateValuesEqual "x" (getField [("x", Value.num (1 / 200))] "x")
      (getField [("x", Value.num 0)] "x") = true := by
    norm_num [stateValuesEqual, getField, findVal, STATE_FLOAT_EPSILON,
      List.find?, abs_of_pos]
  have hch : changedFields ["x"] [("x", Value.num (1 / 200))]
      [("x", Value.num 0)] = [] := by
    unfold changedFields
    rw [if_pos heps]
    rfl
  have hdiff : diffStateMaps c3cur c3prev ["x"] =
      { upserts := [], removed := [] } := by
    have h1 : diffUpserts c3cur c3prev ["x"] = [] := by
      unfold c3cur c3prev diffUpserts
      dsimp only
      rw [show findVal [("e", [("x", Value.num 0)])] "e" =
          some [("x", Value.num 0)] from rfl]
      dsimp only
      rw [hch]
      rfl
    have h2 : diffRemoved c3cur c3prev = [] := rfl
    unfold diffStateMaps
    rw [h1, h2]
  rw [hdiff]
  refine ⟨rfl, rfl, ?_⟩
  intro hcon
  have : (0 : ℚ) = 1 / 200 := Value.num.inj hcon
  norm_num at this

theorem sVE_refl (f : String) (v : Value) : stateValuesEqual f v v = true := by
  unfold stateValuesEqual
  rw [if_pos rfl]

theorem sVE_symm (f : String) (a b : Value)
    (h : stateValuesEqual f a b = true) : stateValuesEqual f b a = true := by
  unfold stateValuesEqual at h ⊢
  by_cases hab : a = b
  · rw [if_pos hab.symm]
  · rw [if_neg hab] at h
    rw [if_neg (fun hc => hab hc.symm)]
    cases a <;> cases b <;> (try exact h) <;>
      (try (cases hfe : findVal STATE_FLOAT_EPSILON f <;> simp_all)) <;>
      simp_all [abs_sub_comm]

theorem findVal_append {α : Type} (a b : List (String × α)) (k : String) :
    findVal (a ++ b) k = (findVal a k).or (findVal b k) := by
  induction a with
  | nil => simp [findVal]
  | cons e rest ih =>
    rw [List.cons_append, findVal_cons, findVal_cons]
    by_cases he : e.1 = k
    · rw [if_pos he, if_pos he]
      rfl
    · rw [if_neg he, if_neg he]
      exact ih

theorem changedFields_lookup_eqv (fields : List String) (ne pe : Entity)
    (f : String)
    (h : stateValuesEqual f (getField ne f) (getField pe f) = true) :
    findVal (changedFields fields ne pe) f = none := by
  induction fields with
  | nil => rfl
  | cons g rest ih =>
    unfold changedFields
    by_cases hg : stateValuesEqual g (getField ne g) (getField pe g) = true
    · rw [if_pos hg]
      exact ih
    · rw [if_neg hg, findVal_cons]
      by_cases hgf : g = f
      · subst hgf
        exact absurd h hg
      · rw [if_neg hgf]
        exact ih

theorem changedFields_lookup_ne (fields : List String) (ne pe : Entity)
    (f : String)
    (h : ¬ stateValuesEqual f (getField ne f) (getField pe f) = true)
    (hf : f ∈ fields) :
    findVal (changedFields fields ne pe) f = some (getField ne f) := by
  induction fields with
  | nil => simp at hf
  | cons g rest ih =>
    unfold changedFields
    by_cases hg : stateValuesEqual g (getField ne g) (getField pe g) = true
    · rw [if_pos hg]
      rcases List.mem_cons.mp hf with hfg | hrest
      · subst hfg
        exact absurd hg h
      · exact ih hrest
    · rw [if_neg hg, findVal_cons]
      by_cases hgf : g = f
      · rw [if_pos hgf, hgf]
      · rw [if_neg hgf]
        rcases List.mem_cons.mp hf with hfg | hrest
        · exact absurd hfg.symm hgf
        · exact ih hrest

theorem changedFields_empty_all (fields : List String) (ne pe : Entity)
    (h : changedFields fields ne pe = []) (f : String) (hf : f ∈ fields) :
    stateValuesEqual f (getField ne f) (getField pe f) = true := by
  induction fields with
  | nil => simp at hf
  | cons g rest ih =>
    unfold changedFields at h
    by_cases hg : stateValuesEqual g (getField ne g) (getField pe g) = true
    · rw [if_pos hg] at h
      rcases List.mem_cons.mp hf with hfg | hrest
      · subst hfg
        exact hg
      · exact ih h hrest
    · rw [if_neg hg] at h
      exact absurd h (by simp)

theorem applyUpsert_lookup_ne (m : StateMap) (u : Upsert) (id : String)
    (h : ¬ u.uid = id) : findVal (applyUpsert m u) id = findVal m id := by
  cases u with
  | full i e => exact findVal_setVal_ne m i id e (fun hc => h (hc.symm ▸ rfl))
  | patch i ch =>
    show findVal (match findVal m i with
      | some pe => setVal m i (applyPatchEntity pe ch)
      | none => setVal m i (applyPatchEntity [] ch)) id = findVal m id
    cases findVal m i with
    | some pe => exact findVal_setVal_ne m i id _ (fun hc => h (hc.symm ▸ rfl))
    | none => exact findVal_setVal_ne m i id _ (fun hc => h (hc.symm ▸ rfl))

theorem applyUpserts_lookup_notmem (us : List Upsert) (m : StateMap)
    (id : String) (h : ∀ u ∈ us, ¬ u.uid = id) :
    findVal (applyUpserts m us) id = findVal m id := by
  induction us generalizing m with
  | nil => rfl
  | cons u rest ih =>
    show findVal (applyUpserts (applyUpsert m u) rest) id = findVal m id
    rw [ih _ (fun x hx => h x (List.mem_cons_of_mem u hx))]
    exact applyUpsert_lookup_ne m u id (h u (List.mem_cons_self u rest))

/-- The entity stored by one upsert, as a function of the previous value. -/
def applyUpsertContent (prevE : Option Entity) : Upsert → Entity
  | .full _ e => e
  | .patch _ ch => applyPatchEntity (prevE.getD []) ch

theorem applyUpserts_lookup_found (us : List Upsert) (m : StateMap)
    (id : String) (u : Upsert)
    (hnodup : (us.map Upsert.uid).Nodup)
    (hfind : us.find? (fun u => decide (u.uid = id)) = some u) :
    findVal (applyUpserts m us) id =
      some (applyUpsertContent (findVal m id) u) := by
  induction us generalizing m with
  | nil => simp at hfind
  | cons u0 rest ih =>
    by_cases h0 : u0.uid = id
    · rw [List.find?_cons_of_pos _ (by simp [h0])] at hfind
      obtain rfl : u0 = u := Option.some.inj hfind
      rw [List.map_cons, List.nodup_cons] at hnodup
      have hrest : ∀ x ∈ rest, ¬ x.uid = id := by
        intro x hx hcx
        apply hnodup.1
        rw [h0, ← hcx]
        exact List.mem_map_of_mem Upsert.uid hx
      show findVal (applyUpserts (applyUpsert m u0) rest) id = _
      rw [applyUpserts_lookup_notmem rest _ id hrest]
      cases u0 with
      | full i e =>
        have hi : i = id := h0
        subst hi
        show findVal (setVal m i e) i = some e
        exact findVal_setVal_self m i e
      | patch i ch =>
        have hi : i = id := h0
        subst hi
        show findVal (match findVal m i with
          | some pe => setVal m i (applyPatchEntity pe ch)
          | none => setVal m i (applyPatchEntity [] ch)) i =
          some (applyPatchEntity ((findVal m i).getD []) ch)
        cases findVal m i with
        | some pe => exact findVal_setVal_self m i _
        | none => exact findVal_setVal_self m i _
    · rw [List.find?_cons_of_neg _ (by simp [h0])] at hfind
      rw [List.map_cons] at hnodup
      show findVal (applyUpserts (applyUpsert m u0) rest) id = _
      rw [ih _ (List.nodup_cons.mp hnodup).2 hfind,
        applyUpsert_lookup_ne m u0 id h0]

theorem diffUpserts_uid_mem (cur prev : StateMap) (fields : List String)
    (u : Upsert) (hu : u ∈ diffUpserts cur prev fields) :
    u.uid ∈ cur.map Prod.fst := by
  induction cur with
  | nil => simp [diffUpserts] at hu
  | cons e rest ih =>
    obtain ⟨i, en⟩ := e
    unfold diffUpserts at hu
    rw [List.map_cons]
    cases hp : findVal prev i with
    | none =>
      rw [hp] at hu
      rcases List.mem_cons.mp hu with rfl | hrest
      · exact List.mem_cons_self _ _
      · exact List.mem_cons_of_mem _ (ih hrest)
    | some pe =>
      rw [hp] at hu
      dsimp only at hu
      by_cases hch : (changedFields fields en pe).isEmpty = true
      · rw [if_pos hch] at hu
        exact List.mem_cons_of_mem _ (ih hu)
      · rw [if_neg hch] at hu
        rcases List.mem_cons.mp hu with rfl | hrest
        · exact List.mem_cons_self _ _
        · exact List.mem_cons_of_mem _ (ih hrest)

theorem diffUpserts_uid_sublist (cur prev : StateMap) (fields : List String) :
    ((diffUpserts cur prev fields).map Upsert.uid).Sublist
      (cur.map Prod.fst) := by
  induction cur with
  | nil => simp [diffUpserts]
  | cons e rest ih =>
    obtain ⟨i, en⟩ := e
    unfold diffUpserts
    rw [List.map_cons]
    cases findVal prev i with
    | none =>
      rw [List.map_cons]
      exact ih.cons₂ i
    | some pe =>
      dsimp only
      by_cases hch : (changedFields fields en pe).isEmpty = true
      · rw [if_pos hch]
        exact ih.cons i
      · rw [if_neg hch, List.map_cons]
        exact ih.cons₂ i

/-- The single upsert (if any) that `diffStateMaps` emits for a given id. -/
def expectedUpsert (cur prev : StateMap) (fields : List String) (id : String) :
    Option Upsert :=
  match findVal cur id, findVal prev id with
  | some e, none => some (.full id e)
  | some e, some pe =>
      if (changedFields fields e pe).isEmpty then none
      else some (.patch id (changedFields fields e pe))
  | none, _ => none

theorem diffUpserts_find (cur prev : StateMap) (fields : List String)
    (id : String) (hnodup : (cur.map Prod.fst).Nodup) :
    (diffUpserts cur prev fields).find? (fun u => decide (u.uid = id)) =
      expectedUpsert cur prev fields id := by
  induction cur with
  | nil => simp [diffUpserts, expectedUpsert, findVal]
  | cons e rest ih =>
    obtain ⟨i, en⟩ := e
    rw [List.map_cons, List.nodup_cons] at hnodup
    unfold diffUpserts expectedUpsert
    by_cases hid : i = id
    · subst hid
      rw [show findVal ((i, en) :: rest) i = some en from by
        rw [findVal_cons, if_pos rfl]]
      have hnone : (diffUpserts rest prev fields).find?
          (fun u => decide (u.uid = i)) = none := by
        apply List.find?_eq_none.mpr
        intro u hu
        simp only [decide_eq_true_eq]
        intro hc
        exact hnodup.1 (hc ▸ diffUpserts_uid_mem rest prev fields u hu)
      cases hp : findVal prev i with
      | none =>
        rw [List.find?_cons_of_pos _ (by simp [Upsert.uid])]
      | some pe =>
        dsimp only
        by_cases hch : (changedFields fields en pe).isEmpty = true
        · rw [if_pos hch, if_pos hch]
          exact hnone
        · rw [if_neg hch, if_neg hch,
            List.find?_cons_of_pos _ (by simp [Upsert.uid])]
    · rw [show findVal ((i, en) :: rest) id = findVal rest id from by
        rw [findVal_cons, if_neg hid]]
      have step : ∀ tail : List Upsert,
          ((Upsert.full i en :: tail).find? (fun u => decide (u.uid = id)) =
            tail.find? (fun u => decide (u.uid = id))) ∧
          ∀ ch, ((Upsert.patch i ch :: tail).find?
              (fun u => decide (u.uid = id)) =
            tail.find? (fun u => decide (u.uid = id))) := by
        intro tail
        constructor
        · rw [List.find?_cons_of_neg _ (by simp [Upsert.uid, hid])]
        · intro ch
          rw [List.find?_cons_of_neg _ (by simp [Upsert.uid, hid])]
      cases hp : findVal prev i with
      | none =>
        rw [(step _).1]
        exact ih hnodup.2
      | some pe =>
        dsimp only
        by_cases hch : (changedFields fields en pe).isEmpty = true
        · rw [if_pos hch]
          exact ih hnodup.2
        · rw [if_neg hch, (step _).2]
          exact ih hnodup.2

theorem mem_keys_of_findVal_some {α : Type} (l : List (String × α))
    (k : String) (v : α) (h : findVal l k = some v) : k ∈ l.map Prod.fst := by
  induction l with
  | nil => simp [findVal] at h
  | cons e rest ih =>
    rw [findVal_cons] at h
    rw [List.map_cons]
    by_cases he : e.1 = k
    · exact he ▸ List.mem_cons_self _ _
    · rw [if_neg he] at h
      exact List.mem_cons_of_mem _ (ih h)

theorem findVal_eq_none_of_not_mem {α : Type} (l : List (String × α))
    (k : String) (h : k ∉ l.map Prod.fst) : findVal l k = none := by
  induction l with
  | nil => rfl
  | cons e rest ih =>
    rw [List.map_cons] at h
    rw [findVal_cons, if_neg (fun hc => h (by rw [← hc]; exact List.mem_cons_self _ _))]
    exact ih (fun hc => h (List.mem_cons_of_mem _ hc))

theorem mem_diffRemoved (cur prev : StateMap) (id : String) :
    id ∈ diffRemoved cur prev ↔
      id ∈ prev.map Prod.fst ∧ findVal cur id = none := by
  unfold diffRemoved
  rw [List.mem_filter]
  simp [Option.isNone_iff_eq_none]

theorem findVal_filter_removed {α : Type} (l : List (String × α))
    (removed : List String) (id : String) :
    findVal (l.filter (fun e => !(decide (e.1 ∈ removed)))) id =
      if id ∈ removed then none else findVal l id := by
  induction l with
  | nil => by_cases h : id ∈ removed <;> simp [h, findVal]
  | cons e rest ih =>
    rw [List.filter_cons]
    by_cases hkeep : e.1 ∈ removed
    · rw [if_neg (by simp [hkeep])]
      rw [ih]
      by_cases hid : id ∈ removed
      · rw [if_pos hid, if_pos hid]
      · rw [if_neg hid, if_neg hid, findVal_cons,
          if_neg (fun hc => hid (by rw [← hc]; exact hkeep))]
    · rw [if_pos (by simp [hkeep])]
      rw [findVal_cons]
      by_cases he : e.1 = id
      · rw [if_pos he, if_neg (he ▸ hkeep), findVal_cons, if_pos he]
      · rw [if_neg he, ih, findVal_cons]
        by_cases hid : id ∈ removed
        · rw [if_pos hid, if_pos hid]
        · rw [if_neg hid, if_neg hid, if_neg he]

set_option maxHeartbeats 1600000 in
/-- C3 (amended): applying `diffStateMaps(current, previous, fields)` to
`previous` — replacing each upserted entity's listed fields and deleting
each removed id — reconstructs a map with exactly the current ids whose
every tracked field agrees with `current` **up to `stateValuesEqual`**:
exactly for fields without an epsilon, and within the epsilon
(0.01 for x/y/vx/vy, 0.001 for angle) for the float fields, since an upsert
carries only fields that changed beyond the epsilon.  (Exact equality on
every tracked field fails; see the counterexample.) -/
theorem claim_C3 (cur prev : StateMap) (fields : List String) (id : String)
    (hc : (cur.map Prod.fst).Nodup) :
    optEntityMatch fields
      (findVal (applyDiff prev (diffStateMaps cur prev fields)) id)
      (findVal cur id) = true := by
  unfold applyDiff diffStateMaps
  dsimp only
  rw [findVal_filter_removed]
  by_cases hrem : id ∈ diffRemoved cur prev
  · rw [if_pos hrem]
    obtain ⟨-, hcnone⟩ := (mem_diffRemoved cur prev id).mp hrem
    rw [hcnone]
    rfl
  · rw [if_neg hrem]
    have hnodupU : ((diffUpserts cur prev fields).map Upsert.uid).Nodup :=
      (diffUpserts_uid_sublist cur prev fields).nodup hc
    cases hcur : findVal cur id with
    | none =>
      have hfind : (diffUpserts cur prev fields).find?
          (fun u => decide (u.uid = id)) = none := by
        rw [diffUpserts_find cur prev fields id hc]
        unfold expectedUpsert
        rw [hcur]
      have hpnone : findVal prev id = none := by
        by_cases hpk : id ∈ prev.map Prod.fst
        · exact absurd ((mem_diffRemoved cur prev id).mpr ⟨hpk, hcur⟩) hrem
        · exact findVal_eq_none_of_not_mem prev id hpk
      rw [applyUpserts_lookup_notmem _ _ _ (by
        intro u hu hc2
        rw [List.find?_eq_none] at hfind
        exact hfind u hu (by simp [hc2]))]
      rw [hpnone]
      rfl
    | some e =>
      cases hprev : findVal prev id with
      | none =>
        have hfind : (diffUpserts cur prev fields).find?
            (fun u => decide (u.uid = id)) = some (.full id e) := by
          rw [diffUpserts_find cur prev fields id hc]
          unfold expectedUpsert
          rw [hcur, hprev]
        rw [applyUpserts_lookup_found _ _ _ _ hnodupU hfind]
        show entityFieldsMatch fields e e = true
        unfold entityFieldsMatch
        rw [List.all_eq_true]
        intro f _
        exact sVE_refl f (getField e f)
      | some pe =>
        by_cases hch : (changedFields fields e pe).isEmpty = true
        · have hfind : (diffUpserts cur prev fields).find?
              (fun u => decide (u.uid = id)) = none := by
            rw [diffUpserts_find cur prev fields id hc]
            unfold expectedUpsert
            rw [hcur, hprev]
            dsimp only
            rw [if_pos hch]
          rw [applyUpserts_lookup_notmem _ _ _ (by
            intro u hu hc2
            rw [List.find?_eq_none] at hfind
            exact hfind u hu (by simp [hc2]))]
          rw [hprev]
          show entityFieldsMatch fields pe e = true
          unfold entityFieldsMatch
          rw [List.all_eq_true]
          intro f hf
          exact sVE_symm f (getField e f) (getField pe f)
            (changedFields_empty_all fields e pe (List.isEmpty_iff.mp hch) f hf)
        · have hfind : (diffUpserts cur prev fields).find?
              (fun u => decide (u.uid = id)) =
              some (.patch id (changedFields fields e pe)) := by
            rw [diffUpserts_find cur prev fields id hc]
            unfold expectedUpsert
            rw [hcur, hprev]
            dsimp only
            rw [if_neg hch]
          rw [applyUpserts_lookup_found _ _ _ _ hnodupU hfind]
          show entityFieldsMatch fields
            (applyPatchEntity ((findVal prev id).getD [])
              (changedFields fields e pe)) e = true
          rw [hprev]
          unfold entityFieldsMatch
          rw [List.all_eq_true]
          intro f hf
          unfold applyPatchEntity
          by_cases hsv : stateValuesEqual f (getField e f) (getField pe f) = true
          · have hnone := changedFields_lookup_eqv fields e pe f hsv
            rw [show getField (changedFields fields e pe ++
                (some pe : Option Entity).getD []) f = getField pe f from by
              unfold getField
              rw [findVal_append, hnone]
              rfl]
            exact sVE_symm f (getField e f) (getField pe f) hsv
          · have hsome := changedFields_lookup_ne fields e pe f hsv hf
            rw [show getField (changedFields fields e pe ++
                (some pe : Option Entity).getD []) f = getField e f from by
              unfold getField
              rw [findVal_append, hsome]
              rfl]
            exact sVE_refl f (getField e f)

def c3curW : StateMap := [("e", [("x", Value.num 5), ("hp", Value.num 3)])]

theorem claim_C3_witness :
    (c3curW.map Prod.fst).Nodup ∧
      optEntityMatch ["x", "hp"]
        (findVal (applyDiff c3prev (diffStateMaps c3curW c3prev ["x", "hp"]))
          "e")
        (findVal c3curW "e") = true :=
  ⟨by decide, claim_C3 c3curW c3prev ["x", "hp"] "e" (by decide)⟩

end HS
